import Mathlib

/-!
# Port-kill core of `flow` (`src/cli/flow/main.go`, `src/main.go`)

A shallow embedding of the listening-process resolver: the parser inside
`listListeningProcesses`, `filterListeningProcessesByPort`,
`uniqueListeningByPID`, `killListeningProcess` and `runKillPort` of
`src/cli/flow/main.go`, and of the copies of the parser, the filter and the
deduplication in `src/main.go`, together with its `extractPullRequestNumber`.

Go strings are modelled as lists of Unicode code points, the runes of a valid
UTF-8 text.  Run-time panics (index or slice out of range) are modelled
explicitly, so that their absence is a statement and not an assumption.
-/

set_option autoImplicit false

namespace Flow

/-! ## Strings -/

/-- A Go `string`, as the list of its runes. -/
abbrev GoString := List Char

/-- Go `len(s)` of a string: its length in bytes (UTF-8). -/
def byteLen (s : GoString) : Nat := (s.map Char.utf8Size).sum

/-- Go `unicode.IsSpace`: for Latin-1 the six ASCII white space characters,
U+0085 and U+00A0; otherwise the `White_Space` property table. -/
def isSpace (r : Char) : Bool :=
  let n := r.toNat
  if n ≤ 0xFF then
    n = 0x09 || n = 0x0A || n = 0x0B || n = 0x0C || n = 0x0D || n = 0x20 || n = 0x85 || n = 0xA0
  else
    n = 0x1680 || (0x2000 ≤ n && n ≤ 0x200A) || n = 0x2028 || n = 0x2029 || n = 0x202F
      || n = 0x205F || n = 0x3000

/-- The loop of `strings.FieldsFunc`: `cur` is the field being read (empty when
the scan is between two fields). -/
def fieldsFrom : List Char → GoString → List GoString
  | [], cur => if cur = [] then [] else [cur]
  | c :: cs, cur =>
    if isSpace c then
      if cur = [] then fieldsFrom cs [] else cur :: fieldsFrom cs []
    else fieldsFrom cs (cur ++ [c])

/-- Go `strings.Fields`: the maximal runs of non-white-space characters. -/
def Fields (s : GoString) : List GoString := fieldsFrom s []

/-- Go `strings.TrimSpace`. -/
def TrimSpace (s : GoString) : GoString := (s.dropWhile isSpace).rdropWhile isSpace

/-- Value of a decimal digit, `none` for any other character. -/
def digitVal (c : Char) : Option Nat :=
  if 48 ≤ c.toNat ∧ c.toNat ≤ 57 then some (c.toNat - 48) else none

/-- Digit loop of `strconv.ParseUint` in base 10 (without the range check). -/
def parseDigits : List Char → Nat → Option Nat
  | [], n => some n
  | c :: cs, n =>
    match digitVal c with
    | none => none
    | some d => parseDigits cs (n * 10 + d)

/-- Go `strconv.Atoi` on a 64-bit platform: an optional sign, at least one
decimal digit, nothing else, and a value in `[-2^63, 2^63 - 1]`. `none` stands
for a non-nil error (`ErrSyntax` or `ErrRange`). -/
def Atoi (s : GoString) : Option Int :=
  match s with
  | [] => none
  | c :: cs =>
    let neg := decide (c = '-')
    let ds := if c = '-' ∨ c = '+' then cs else s
    if ds = [] then none
    else
      match parseDigits ds 0 with
      | none => none
      | some n =>
        if neg then (if n ≤ 2 ^ 63 then some (-(n : Int)) else none)
        else (if n < 2 ^ 63 then some (n : Int) else none)

/-- Go `strings.LastIndex(s, string(c))` for a one-byte `c`, as a position in
runes: `-1` when `c` does not occur. -/
def LastIndex : GoString → Char → Int
  | [], _ => -1
  | x :: xs, c =>
    let r := LastIndex xs c
    if 0 ≤ r then r + 1 else if x = c then 0 else -1

/-- Go index expression `xs[i]`; `none` is the panic "index out of range". -/
def index {α : Type} (xs : List α) (i : Int) : Option α :=
  if 0 ≤ i then xs[i.toNat]? else none

/-- Go slice expression `s[i:]`; `none` is the panic "slice bounds out of
range". -/
def sliceFrom (s : GoString) (i : Int) : Option GoString :=
  if 0 ≤ i ∧ i ≤ (s.length : Int) then some (s.drop i.toNat) else none

/-- Go `strconv.Itoa` / the `%d` verb. -/
def Itoa (n : Int) : GoString :=
  if n < 0 then '-' :: Nat.toDigits 10 n.natAbs else Nat.toDigits 10 n.toNat

/-! ## `bufio.Scanner` with the default `ScanLines` split -/

/-- Go `bufio.MaxScanTokenSize`. -/
def MaxScanTokenSize : Nat := 64 * 1024

/-- Go `dropCR`: drop one trailing carriage return. -/
def dropCR (data : GoString) : GoString :=
  if data.getLast? = some '\r' then data.dropLast else data

/-- The tokens `scanner.Scan()` / `scanner.Text()` yield and whether
`scanner.Err()` is `bufio.ErrTooLong` afterwards. `cur` is the part of the
current line already buffered. A line is handed out when its bytes fit the
buffer of `MaxScanTokenSize` bytes together with the newline that ends them (or
with room to spare at the end of the input); otherwise scanning stops with
`ErrTooLong`. -/
def scanFrom : List Char → GoString → List GoString × Bool
  | [], cur =>
    if cur = [] then ([], false)
    else if MaxScanTokenSize ≤ byteLen cur then ([], true)
    else ([dropCR cur], false)
  | c :: cs, cur =>
    if c = '\n' then
      if MaxScanTokenSize ≤ byteLen cur then ([], true)
      else ((dropCR cur) :: (scanFrom cs []).1, (scanFrom cs []).2)
    else scanFrom cs (cur ++ [c])

/-- Scanning a whole buffer. -/
def scanLines (data : GoString) : List GoString × Bool := scanFrom data []

/-! ## Records and the parser of `listListeningProcesses` -/

/-- Go `type listeningProcess struct`. -/
structure listeningProcess where
  Command : GoString
  User : GoString
  PID : Int
  Address : GoString
  Port : GoString
  Raw : GoString
deriving DecidableEq, Repr

/-- What one iteration of the scan loop does with a line other than the first. -/
inductive LineResult where
  /-- The iteration ends in `continue`. -/
  | skip : LineResult
  /-- The iteration appends a record. -/
  | record : listeningProcess → LineResult
  /-- The iteration panics. -/
  | panic : LineResult
deriving DecidableEq, Repr

/-- The derivation of `port` from `address`. -/
def portOf (address : GoString) : Option GoString :=
  let idx := LastIndex address ':'
  if 0 ≤ idx ∧ idx + 1 < (address.length : Int) then sliceFrom address (idx + 1)
  else some address

/-- Body of the scan loop for a line after the first. -/
def parseLine (line : GoString) : LineResult :=
  let fields := Fields line
  if fields.length < 9 then .skip
  else
    match index fields 1 with
    | none => .panic
    | some f1 =>
      match Atoi f1 with
      | none => .skip
      | some pid =>
        match index fields ((fields.length : Int) - 2) with
        | none => .panic
        | some address =>
          match portOf address with
          | none => .panic
          | some port =>
            match index fields 0, index fields 2 with
            | some f0, some f2 =>
              .record
                { Command := f0, User := f2, PID := pid, Address := address, Port := port,
                  Raw := line }
            | _, _ => .panic

/-- The scan loop over the lines the scanner yields: `firstLine` and
`processes` are the loop's variables; `none` is a panic. -/
def parseLoop : List GoString → Bool → List listeningProcess → Option (List listeningProcess)
  | [], _, processes => some processes
  | line :: rest, firstLine, processes =>
    if firstLine then parseLoop rest false processes
    else
      match parseLine line with
      | .skip => parseLoop rest false processes
      | .record p => parseLoop rest false (processes ++ [p])
      | .panic => none

/-! ## Errors, outcomes and the outside world -/

/-- Go `error` values that occur in the port-kill command. -/
inductive Error where
  /-- The sentinel `fuzzyfinder.ErrAbort`. -/
  | errAbort : Error
  /-- The sentinel `bufio.ErrTooLong`. -/
  | errTooLong : Error
  /-- A `syscall.Errno` with its number and its text. -/
  | errno : Nat → GoString → Error
  /-- Any other error value handed out by a library, with its text. -/
  | other : GoString → Error
  /-- An error made by `fmt.Errorf` without `%w`. -/
  | text : GoString → Error
  /-- An error made by `fmt.Errorf` whose format ends in `%w`: the text before the
  wrapped error, and the wrapped error. -/
  | wrap : GoString → Error → Error
deriving DecidableEq, Repr

/-- Go `syscall.ESRCH`. -/
def ESRCH : Nat := 3

/-- Go `err.Error()`. -/
def Error.message : Error → GoString
  | .errAbort => "abort".toList
  | .errTooLong => "bufio.Scanner: token too long".toList
  | .errno _ t => t
  | .other t => t
  | .text t => t
  | .wrap pre cause => pre ++ cause.message

/-- Go `errors.Is(err, fuzzyfinder.ErrAbort)`: the sentinel is somewhere on the
chain of wrapped errors. -/
def Error.isAbort : Error → Bool
  | .errAbort => true
  | .wrap _ cause => cause.isAbort
  | _ => false

/-- Go `errors.Is(err, syscall.ESRCH)`. -/
def Error.isESRCH : Error → Bool
  | .errno n _ => n = ESRCH
  | .wrap _ cause => cause.isESRCH
  | _ => false

/-- How a Go call ends: normally with a value, normally with a non-nil error, or
in a panic. -/
inductive Outcome (α : Type) where
  | ok : α → Outcome α
  | error : Error → Outcome α
  | panic : Outcome α
deriving DecidableEq, Repr

/-- Everything outside the program that `runKillPort` consults. -/
structure World where
  /-- The package variable `commandName`. -/
  commandName : GoString
  /-- Error of `exec.LookPath("lsof")`, `none` when the program is found. -/
  lookPath : Option Error
  /-- Error of `cmd.Run()`, `none` on exit status zero. -/
  run : Option Error
  /-- What `lsof` wrote to its standard output. -/
  stdout : GoString
  /-- What `lsof` wrote to its standard error. -/
  stderr : GoString
  /-- Result of `fuzzyfinder.Find` for the given display lines. -/
  find : List GoString → Except Error Int
  /-- Error of `syscall.Kill(pid, syscall.SIGTERM)`, `none` on success. -/
  kill : Int → Option Error

/-- The externally visible steps of an invocation, in order. -/
inductive Event where
  /-- The call `exec.LookPath("lsof")`. -/
  | lookPath : Event
  /-- The call `cmd.Run()` of `lsof -nP -iTCP -sTCP:LISTEN`. -/
  | run : Event
  /-- The call `fuzzyfinder.Find`: the slice handed over and the display line the
  item function gives for each of its items. -/
  | find : List listeningProcess → List GoString → Event
  /-- The call `syscall.Kill(pid, syscall.SIGTERM)`. -/
  | kill : Int → Event
  /-- Text written to `ctx.Stdout()`. -/
  | stdout : GoString → Event
  /-- Text written to `ctx.Stderr()`. -/
  | stderr : GoString → Event
deriving DecidableEq, Repr

/-! ## `listListeningProcesses` -/

/-- The part of `listListeningProcesses` after `cmd.Run()` succeeded: the scan
loop over the captured standard output, then the check of `scanner.Err()`. -/
def parseLsofOutput (out : GoString) : Outcome (List listeningProcess) :=
  match parseLoop (scanLines out).1 true [] with
  | none => .panic
  | some processes =>
    if (scanLines out).2 then .error (.wrap "scan lsof output: ".toList .errTooLong)
    else .ok processes

/-- Go `listListeningProcesses` of `src/cli/flow/main.go`. -/
def listListeningProcesses (w : World) : List Event × Outcome (List listeningProcess) :=
  match w.lookPath with
  | some err => ([.lookPath], .error (.wrap "lsof not found in PATH: ".toList err))
  | none =>
    match w.run with
    | some err =>
      let msg := TrimSpace w.stderr
      if msg ≠ [] then
        ([.lookPath, .run],
          .error (.wrap ("list listening ports: ".toList ++ msg ++ ": ".toList) err))
      else ([.lookPath, .run], .error (.wrap "list listening ports: ".toList err))
    | none => ([.lookPath, .run], parseLsofOutput w.stdout)

/-! ## Filtering, deduplication, signalling -/

/-- Go `killListeningProcess`, with the event of the system call. -/
def killListeningProcess (w : World) (pid : Int) : List Event × Option Error :=
  match w.kill pid with
  | some err => if err.isESRCH then ([.kill pid], none) else ([.kill pid], some err)
  | none => ([.kill pid], none)

/-- The loop of `filterListeningProcessesByPort`; `filtered` is the slice built
so far. -/
def filterLoop (targetPort : GoString) :
    List listeningProcess → List listeningProcess → List listeningProcess
  | [], filtered => filtered
  | p :: ps, filtered =>
    if p.Port = targetPort then filterLoop targetPort ps (filtered ++ [p])
    else filterLoop targetPort ps filtered

/-- Go `filterListeningProcessesByPort`. -/
def filterListeningProcessesByPort (processes : List listeningProcess) (targetPort : GoString) :
    List listeningProcess :=
  filterLoop targetPort processes []

/-- The loop of `uniqueListeningByPID`; `seen` holds the keys of the map `seen`,
`unique` is the slice built so far. -/
def uniqueLoop : List listeningProcess → List Int → List listeningProcess → List listeningProcess
  | [], _, unique => unique
  | p :: ps, seen, unique =>
    if p.PID ∈ seen then uniqueLoop ps seen unique
    else uniqueLoop ps (p.PID :: seen) (unique ++ [p])

/-- Go `uniqueListeningByPID`. -/
def uniqueListeningByPID (processes : List listeningProcess) : List listeningProcess :=
  uniqueLoop processes [] []

/-! ## `runKillPort` -/

/-- Go `reportError` for a non-nil error: print it to standard error, return it. -/
def reportError (err : Error) : List Event × Outcome Unit :=
  ([.stderr (err.message ++ "\n".toList)], .error err)

/-- The display line `runKillPort` gives `fuzzyfinder.Find` for an item. -/
def displayLine (p : listeningProcess) : GoString :=
  p.Command ++ " (".toList ++ Itoa p.PID ++ ") ".toList ++ p.Address

/-- The text `runKillPort` prints after a successful signal. -/
def killedMessage (p : listeningProcess) : GoString :=
  "Killed ".toList ++ p.Command ++ " (pid ".toList ++ Itoa p.PID ++ ") listening on ".toList
    ++ p.Address ++ "\n".toList

/-- The usage line `runKillPort` prints to standard error. -/
def usageLine (w : World) : GoString :=
  "Usage: ".toList ++ w.commandName ++ " killPort [port]\n".toList

/-- The statements of `runKillPort` from `killListeningProcess(selected.PID)` to
the return; they occur twice in the source, for the single match and for the
selected item. -/
def killSelected (w : World) (selected : listeningProcess) : List Event × Outcome Unit :=
  match killListeningProcess w selected.PID with
  | (evs, some err) =>
    let r := reportError (.wrap ("kill pid ".toList ++ Itoa selected.PID ++ ": ".toList) err)
    (evs ++ r.1, r.2)
  | (evs, none) => (evs ++ [.stdout (killedMessage selected)], .ok ())

/-- The statements of `runKillPort` from the call of `fuzzyfinder.Find` on. -/
def selectAndKill (w : World) (targets : List listeningProcess) : List Event × Outcome Unit :=
  let items := targets.map displayLine
  match w.find items with
  | .error err =>
    if err.isAbort then ([.find targets items], .ok ())
    else
      let r := reportError (.wrap "select port: ".toList err)
      (.find targets items :: r.1, r.2)
  | .ok idx =>
    match index targets idx with
    | none => ([.find targets items], .panic)
    | some selected =>
      let r := killSelected w selected
      (.find targets items :: r.1, r.2)

/-- Go `runKillPort` of `src/cli/flow/main.go`; `args` are the positional
arguments of the context. The result is the trace of external steps and the
returned error (`ok ()` for `nil`). -/
def runKillPort (w : World) (args : List GoString) : List Event × Outcome Unit :=
  if args.length > 1 then
    let r := reportError
      (.text ("expected at most 1 argument, got ".toList ++ Itoa (args.length : Int)))
    (.stderr (usageLine w) :: r.1, r.2)
  else
    match listListeningProcesses w with
    | (evs, .panic) => (evs, .panic)
    | (evs, .error err) => (evs ++ (reportError err).1, (reportError err).2)
    | (evs, .ok processes) =>
      if processes.length = 0 then
        (evs ++ [.stdout "No listening TCP ports found.\n".toList], .ok ())
      else
        match args with
        | [arg0] =>
          let rawPort := TrimSpace arg0
          if rawPort = [] then
            let r := reportError (.text "port cannot be empty".toList)
            (evs ++ .stderr (usageLine w) :: r.1, r.2)
          else
            let targets := uniqueListeningByPID (filterListeningProcessesByPort processes rawPort)
            if targets.length = 0 then
              (evs ++ [.stdout ("No listening process found on port ".toList ++ rawPort
                ++ ".\n".toList)], .ok ())
            else if targets.length = 1 then
              match index targets 0 with
              | none => (evs, .panic)
              | some selected => (evs ++ (killSelected w selected).1, (killSelected w selected).2)
            else (evs ++ (selectAndKill w targets).1, (selectAndKill w targets).2)
        | _ => (evs ++ (selectAndKill w processes).1, (selectAndKill w processes).2)

/-! ## Auxiliary definitions for the statements -/

/-- The record a line other than the first contributes, if any. -/
def lineRecord (line : GoString) : Option listeningProcess :=
  match parseLine line with
  | .record p => some p
  | _ => none

/-- The pieces between the newlines of `cur ++ data`, when `cur` has no newline. -/
def piecesFrom (data cur : GoString) : List GoString :=
  (List.splitOn '\n' data).modifyHead (fun l => cur ++ l)

/-- What `uniqueLoop` appends to `unique`: the records whose PID is neither in
`seen` nor carried by an earlier record. -/
def firstOfPID : List listeningProcess → List Int → List listeningProcess
  | [], _ => []
  | p :: ps, seen =>
    if p.PID ∈ seen then firstOfPID ps seen else p :: firstOfPID ps (p.PID :: seen)

/-! ## Sample inputs -/

/-- A small `lsof` listing: a header, a data line, a line of 8 fields, a line
with a non-numeric PID field, another data line. -/
def sampleListing : GoString :=
  "COMMAND PID USER\nnode 5 u 22u IPv4 0x1 0t0 TCP 127.0.0.1:8080 (LISTEN)\na b c d e f g h\nnode x u 22u IPv4 0x1 0t0 TCP *:81 (LISTEN)\npy 7 u 3u IPv4 0x3 0t0 TCP *:9000 (LISTEN)\n".toList

/-- The two records of `sampleListing`. -/
def sampleRecords : List listeningProcess :=
  [ { Command := "node".toList, User := "u".toList, PID := 5, Address := "127.0.0.1:8080".toList,
      Port := "8080".toList,
      Raw := "node 5 u 22u IPv4 0x1 0t0 TCP 127.0.0.1:8080 (LISTEN)".toList },
    { Command := "py".toList, User := "u".toList, PID := 7, Address := "*:9000".toList,
      Port := "9000".toList, Raw := "py 7 u 3u IPv4 0x3 0t0 TCP *:9000 (LISTEN)".toList } ]

/-- A well-formed data line. -/
def sampleLine : GoString := "node 5 u 22u IPv4 0x1 0t0 TCP 127.0.0.1:8080 (LISTEN)".toList

/-- A header and two data lines, the second ended by carriage return and newline. -/
def sampleTwoLines : GoString :=
  "COMMAND PID USER\n".toList ++ sampleLine
    ++ "\npy 7 u 3u IPv4 0x3 0t0 TCP *:9000 (LISTEN)\r\n".toList

/-- A listing whose data lines have the PID fields `0` and `-5`. -/
def nonPositiveListing : GoString :=
  "H\na 0 u 1 2 3 4 TCP *:80 (LISTEN)\nb -5 u 1 2 3 4 TCP *:81 (LISTEN)\n".toList

/-- A listing with two sockets of process 5, one of them on port 8080, and one
socket of process 7. -/
def twoSocketListing : GoString :=
  "COMMAND PID USER\nnode 5 u 22u IPv4 0x1 0t0 TCP 127.0.0.1:8080 (LISTEN)\nnode 5 u 23u IPv6 0x2 0t0 TCP [::1]:3000 (LISTEN)\npy 7 u 3u IPv4 0x3 0t0 TCP *:9000 (LISTEN)\n".toList

/-- The record of the first data line of `twoSocketListing`. -/
def nodeOn8080 : listeningProcess :=
  { Command := "node".toList, User := "u".toList, PID := 5, Address := "127.0.0.1:8080".toList,
    Port := "8080".toList, Raw := "node 5 u 22u IPv4 0x1 0t0 TCP 127.0.0.1:8080 (LISTEN)".toList }

/-- The three records of `twoSocketListing`. -/
def twoSocketRecords : List listeningProcess :=
  [ nodeOn8080,
    { Command := "node".toList, User := "u".toList, PID := 5, Address := "[::1]:3000".toList,
      Port := "3000".toList,
      Raw := "node 5 u 23u IPv6 0x2 0t0 TCP [::1]:3000 (LISTEN)".toList },
    { Command := "py".toList, User := "u".toList, PID := 7, Address := "*:9000".toList,
      Port := "9000".toList, Raw := "py 7 u 3u IPv4 0x3 0t0 TCP *:9000 (LISTEN)".toList } ]

/-- A world where `lsof` prints `twoSocketListing`, the user picks the item of
index 2 and every signal is delivered. -/
def sampleWorld : World where
  commandName := "fgo".toList
  lookPath := none
  run := none
  stdout := twoSocketListing
  stderr := []
  find := fun _ => .ok 2
  kill := fun _ => none

/-! ## Auxiliary definitions for the statements about traces -/

/-- Go `errors.Unwrap`. -/
def Error.unwrap : Error → Option Error
  | .wrap _ cause => some cause
  | _ => none

/-- The PID of a signal event. -/
def Event.killed : Event → Option Int
  | .kill pid => some pid
  | _ => none

/-- The slice handed over by a call of the selector. -/
def Event.shown : Event → Option (List listeningProcess)
  | .find targets _ => some targets
  | _ => none

/-- The PIDs `syscall.Kill` was called with in a trace, in order. -/
def signals (trace : List Event) : List Int := trace.filterMap Event.killed

/-- The slices `fuzzyfinder.Find` was called with in a trace, in order. -/
def selections (trace : List Event) : List (List listeningProcess) :=
  trace.filterMap Event.shown

/-- The candidates `runKillPort` computes for a port argument. -/
def candidatesFor (all : List listeningProcess) (arg : GoString) : List listeningProcess :=
  uniqueListeningByPID (filterListeningProcessesByPort all (TrimSpace arg))

/-- A listing where processes 5 and 7 listen on port 3000, process 5 on two
sockets. -/
def sharedPortListing : GoString :=
  "COMMAND PID USER\nnode 5 u 22u IPv4 0x1 0t0 TCP *:3000 (LISTEN)\nnode 5 u 23u IPv6 0x2 0t0 TCP [::1]:3000 (LISTEN)\npy 7 u 3u IPv4 0x3 0t0 TCP 127.0.0.1:3000 (LISTEN)\n".toList

/-- The first record of `sharedPortListing`. -/
def nodeOn3000 : listeningProcess :=
  { Command := "node".toList, User := "u".toList, PID := 5, Address := "*:3000".toList,
    Port := "3000".toList, Raw := "node 5 u 22u IPv4 0x1 0t0 TCP *:3000 (LISTEN)".toList }

/-- The last record of `sharedPortListing`. -/
def pyOn3000 : listeningProcess :=
  { Command := "py".toList, User := "u".toList, PID := 7, Address := "127.0.0.1:3000".toList,
    Port := "3000".toList, Raw := "py 7 u 3u IPv4 0x3 0t0 TCP 127.0.0.1:3000 (LISTEN)".toList }

/-- The three records of `sharedPortListing`. -/
def sharedPortRecords : List listeningProcess :=
  [ nodeOn3000,
    { Command := "node".toList, User := "u".toList, PID := 5, Address := "[::1]:3000".toList,
      Port := "3000".toList,
      Raw := "node 5 u 23u IPv6 0x2 0t0 TCP [::1]:3000 (LISTEN)".toList },
    pyOn3000 ]

/-- A world where `lsof` prints `sharedPortListing`, the user picks the item of
index 1 and every signal is delivered. -/
def sharedPortWorld : World where
  commandName := "fgo".toList
  lookPath := none
  run := none
  stdout := sharedPortListing
  stderr := []
  find := fun _ => .ok 1
  kill := fun _ => none

/-- A world where `lsof` prints its header only. -/
def emptyWorld : World where
  commandName := "fgo".toList
  lookPath := none
  run := none
  stdout := "COMMAND PID USER\n".toList
  stderr := []
  find := fun _ => .ok 0
  kill := fun _ => none

/-- The sample world with a user who cancels the selection. -/
def abortWorld : World where
  commandName := "fgo".toList
  lookPath := none
  run := none
  stdout := twoSocketListing
  stderr := []
  find := fun _ => .error .errAbort
  kill := fun _ => none

/-- The sample world with a selector that fails. -/
def failWorld : World where
  commandName := "fgo".toList
  lookPath := none
  run := none
  stdout := twoSocketListing
  stderr := []
  find := fun _ => .error (.other "no terminal".toList)
  kill := fun _ => some (.errno 1 "operation not permitted".toList)

/-- The sample world where every signal is refused with `EPERM`. -/
def deniedWorld : World where
  commandName := "fgo".toList
  lookPath := none
  run := none
  stdout := twoSocketListing
  stderr := []
  find := fun _ => .ok 2
  kill := fun _ => some (.errno 1 "operation not permitted".toList)

/-- The text of a print event. -/
def Event.text : Event → Option GoString
  | .stdout s => some s
  | .stderr s => some s
  | _ => none

/-- The texts written to standard output and standard error in a trace, in
order. -/
def printed (trace : List Event) : List GoString := trace.filterMap Event.text

/-- The sample world where every signalled process is already gone (`ESRCH`). -/
def goneWorld : World where
  commandName := "fgo".toList
  lookPath := none
  run := none
  stdout := twoSocketListing
  stderr := []
  find := fun _ => .ok 2
  kill := fun _ => some (.errno 3 "no such process".toList)

/-- A world where `lsof` exits with status 1 after a line on standard error. -/
def brokenWorld : World where
  commandName := "fgo".toList
  lookPath := none
  run := some (.other "exit status 1".toList)
  stdout := []
  stderr := "lsof: illegal option\n".toList
  find := fun _ => .ok 0
  kill := fun _ => none

/-- A world without `lsof`. -/
def missingWorld : World where
  commandName := "fgo".toList
  lookPath := some (.other "exec: \"lsof\": executable file not found in $PATH".toList)
  run := none
  stdout := []
  stderr := []
  find := fun _ => .ok 0
  kill := fun _ => none

/-! ## The copies in `src/main.go` -/

/-- Go `strings.TrimSuffix`. -/
def TrimSuffix (s suffix : GoString) : GoString :=
  if suffix.isSuffixOf s then s.take (s.length - suffix.length) else s

/-- Go `strings.HasPrefix`. -/
def HasPrefix (s pre : GoString) : Bool := pre.isPrefixOf s

/-- Go `strings.IndexAny`, as a position in runes: `-1` when no character of
`chars` occurs. -/
def IndexAny : GoString → GoString → Int
  | [], _ => -1
  | c :: cs, chars =>
    if c ∈ chars then 0
    else
      let r := IndexAny cs chars
      if 0 ≤ r then r + 1 else -1

/-- Go slice expression `s[:i]`; `none` is the panic "slice bounds out of
range". -/
def sliceTo (s : GoString) (i : Int) : Option GoString :=
  if 0 ≤ i ∧ i ≤ (s.length : Int) then some (s.take i.toNat) else none

/-- Go `strings.Trim(s, "/")` for a one-character cutset. -/
def Trim (s : GoString) (c : Char) : GoString :=
  (s.dropWhile (fun x => x == c)).rdropWhile (fun x => x == c)

/-- The fields of a `*url.URL` that `extractPullRequestNumber` reads. -/
structure URL where
  Host : GoString
  Path : GoString

namespace Main

/-- The loop of `filterProcessesByPort` of `src/main.go`. -/
def filterLoop (targetPort : GoString) :
    List listeningProcess → List listeningProcess → List listeningProcess
  | [], filtered => filtered
  | p :: ps, filtered =>
    if p.Port = targetPort then filterLoop targetPort ps (filtered ++ [p])
    else filterLoop targetPort ps filtered

/-- Go `filterProcessesByPort` of `src/main.go`. -/
def filterProcessesByPort (processes : List listeningProcess) (targetPort : GoString) :
    List listeningProcess :=
  filterLoop targetPort processes []

/-- The loop of `uniqueByPID` of `src/main.go`. -/
def uniqueLoop : List listeningProcess → List Int → List listeningProcess → List listeningProcess
  | [], _, unique => unique
  | p :: ps, seen, unique =>
    if p.PID ∈ seen then uniqueLoop ps seen unique
    else uniqueLoop ps (p.PID :: seen) (unique ++ [p])

/-- Go `uniqueByPID` of `src/main.go`. -/
def uniqueByPID (processes : List listeningProcess) : List listeningProcess :=
  uniqueLoop processes [] []

/-- Body of the scan loop of `listListeningProcesses` of `src/main.go` for a line
after the first. -/
def parseLine (line : GoString) : LineResult :=
  let fields := Fields line
  if fields.length < 9 then .skip
  else
    match index fields 1 with
    | none => .panic
    | some f1 =>
      match Atoi f1 with
      | none => .skip
      | some pid =>
        match index fields ((fields.length : Int) - 2) with
        | none => .panic
        | some address =>
          let idx := LastIndex address ':'
          match (if 0 ≤ idx ∧ idx + 1 < (address.length : Int) then sliceFrom address (idx + 1)
            else some address) with
          | none => .panic
          | some port =>
            match index fields 0, index fields 2 with
            | some f0, some f2 =>
              .record
                { Command := f0, User := f2, PID := pid, Address := address, Port := port,
                  Raw := line }
            | _, _ => .panic

/-- The scan loop of `listListeningProcesses` of `src/main.go`. -/
def parseLoop : List GoString → Bool → List listeningProcess → Option (List listeningProcess)
  | [], _, processes => some processes
  | line :: rest, firstLine, processes =>
    if firstLine then parseLoop rest false processes
    else
      match parseLine line with
      | .skip => parseLoop rest false processes
      | .record p => parseLoop rest false (processes ++ [p])
      | .panic => none

/-- The part of `listListeningProcesses` of `src/main.go` after `cmd.Run()`
succeeded. -/
def parseLsofOutput (out : GoString) : Outcome (List listeningProcess) :=
  match parseLoop (scanLines out).1 true [] with
  | none => .panic
  | some processes =>
    if (scanLines out).2 then .error (.wrap "scan lsof output: ".toList .errTooLong)
    else .ok processes

/-- Go `listListeningProcesses` of `src/main.go`: there is no `exec.LookPath`
step. -/
def listListeningProcesses (w : World) : List Event × Outcome (List listeningProcess) :=
  match w.run with
  | some err =>
    let msg := TrimSpace w.stderr
    if msg ≠ [] then
      ([.run], .error (.wrap ("list listening ports: ".toList ++ msg ++ ": ".toList) err))
    else ([.run], .error (.wrap "list listening ports: ".toList err))
  | none => ([.run], parseLsofOutput w.stdout)

/-- Go `parseNumericCandidate`: the number and the flag `ok`; `none` is a
panic. -/
def parseNumericCandidate (raw : GoString) : Option (Int × Bool) :=
  let trimmed := TrimSpace raw
  if trimmed = [] then some (0, false)
  else
    let idx := IndexAny trimmed "?#".toList
    match (if 0 ≤ idx then sliceTo trimmed idx else some trimmed) with
    | none => none
    | some cut =>
      let last := TrimSpace cut
      if last = [] then some (0, false)
      else
        match Atoi last with
        | none => some (0, false)
        | some number => if number ≤ 0 then some (0, false) else some (number, true)

/-- The loop of `extractPullRequestNumber` over the segments of the path, from
index `i`, with `fuel` iterations left: `some (some n)` when it returns `n`,
`some none` when it ends without returning, `none` for a panic. -/
def scanSegments (segments : List GoString) : Nat → Nat → Option (Option Int)
  | 0, _ => some none
  | fuel + 1, i =>
    if i < segments.length then
      match index segments (i : Int) with
      | none => none
      | some segment =>
        if segment = "pull".toList ∨ segment = "pulls".toList then
          if i + 1 < segments.length then
            match index segments ((i : Int) + 1) with
            | none => none
            | some next =>
              match parseNumericCandidate next with
              | none => none
              | some (number, true) => some (some number)
              | some (_, false) => scanSegments segments fuel (i + 1)
          else scanSegments segments fuel (i + 1)
        else scanSegments segments fuel (i + 1)
    else some none

/-- The last two attempts of `extractPullRequestNumber`: what follows the last
`sep` in the candidate, when something does. `some (some n)` when the attempt
returns `n`, `some none` when it does not return, `none` for a panic. -/
def afterLast (candidate : GoString) (sep : Char) : Option (Option Int) :=
  let idx := LastIndex candidate sep
  if 0 ≤ idx ∧ idx + 1 < (candidate.length : Int) then
    match sliceFrom candidate (idx + 1) with
    | none => none
    | some rest =>
      match parseNumericCandidate rest with
      | none => none
      | some (number, true) => some (some number)
      | some (_, false) => some none
  else some none

/-- The attempt of `extractPullRequestNumber` on a candidate that starts with
`http://` or `https://`: the segment after `pull` or `pulls` in the path of
the parsed URL. `some (some n)` when the attempt returns `n`, `some none` when
it does not return, `none` for a panic. `urlParse` gives `none` for a non-nil
error of `url.Parse`. -/
def urlAttempt (urlParse : GoString → Option URL) (candidate : GoString) :
    Option (Option Int) :=
  if HasPrefix candidate "http://".toList ∨ HasPrefix candidate "https://".toList then
    match urlParse candidate with
    | some u =>
      if u.Host ≠ [] then
        scanSegments (List.splitOn '/' (Trim u.Path '/'))
          (List.splitOn '/' (Trim u.Path '/')).length 0
      else some none
    | none => some none
  else some none

/-- Go `extractPullRequestNumber`. The library functions `url.Parse` and the
`%q` verb are parameters. -/
def extractPullRequestNumber (urlParse : GoString → Option URL) (quote : GoString → GoString)
    (input : GoString) : Outcome Int :=
  let candidate := TrimSuffix (TrimSpace input) "/".toList
  if candidate = [] then .error (.text "pull request reference cannot be empty".toList)
  else
    match parseNumericCandidate candidate with
    | none => .panic
    | some (number, true) => .ok number
    | some (_, false) =>
      match urlAttempt urlParse candidate with
      | none => .panic
      | some (some number) => .ok number
      | some none =>
        match afterLast candidate '#' with
        | none => .panic
        | some (some number) => .ok number
        | some none =>
          match afterLast candidate '/' with
          | none => .panic
          | some (some number) => .ok number
          | some none =>
            .error (.text ("unable to determine pull request number from ".toList
              ++ quote input))

end Main

/-! ## Auxiliary facts: strings -/

theorem index_natCast {α : Type} (xs : List α) (n : Nat) : index xs (n : Int) = xs[n]? := by
  simp [index]

theorem LastIndex_lt (s : GoString) (c : Char) : LastIndex s c < (s.length : Int) := by
  induction s with
  | nil => simp [LastIndex]
  | cons x xs ih =>
    simp only [LastIndex, List.length_cons, Nat.cast_add, Nat.cast_one]
    split_ifs <;> omega

theorem LastIndex_cons (x : Char) (xs : GoString) (c : Char) :
    LastIndex (x :: xs) c
      = if 0 ≤ LastIndex xs c then LastIndex xs c + 1 else if x = c then 0 else -1 := rfl

theorem LastIndex_neg_iff (s : GoString) (c : Char) : LastIndex s c < 0 ↔ c ∉ s := by
  induction s with
  | nil => simp [LastIndex]
  | cons x xs ih =>
    rw [LastIndex_cons, List.mem_cons, not_or]
    by_cases h1 : 0 ≤ LastIndex xs c
    · rw [if_pos h1]
      constructor
      · intro h; omega
      · intro h
        have := ih.mpr h.2
        omega
    · rw [if_neg h1]
      have hx : c ∉ xs := ih.mp (by omega)
      by_cases h2 : x = c
      · rw [if_pos h2]
        constructor
        · intro h; omega
        · intro h; exact absurd h2.symm h.1
      · rw [if_neg h2]
        constructor
        · intro _; exact ⟨fun h => h2 h.symm, hx⟩
        · intro _; omega

theorem LastIndex_append_cons (pre suf : GoString) (c : Char) (h : c ∉ suf) :
    LastIndex (pre ++ c :: suf) c = (pre.length : Int) := by
  induction pre with
  | nil =>
    have := (LastIndex_neg_iff suf c).mpr h
    rw [List.nil_append, LastIndex_cons, if_neg (by omega), if_pos rfl]
    rfl
  | cons x xs ih =>
    rw [List.cons_append, LastIndex_cons, ih, if_pos (by omega), List.length_cons]
    push_cast
    rfl

theorem portOf_of_not_mem (a : GoString) (h : ':' ∉ a) : portOf a = some a := by
  have := (LastIndex_neg_iff a ':').mpr h
  simp only [portOf]
  rw [if_neg (by omega)]

theorem portOf_trailing (pre : GoString) : portOf (pre ++ [':']) = some (pre ++ [':']) := by
  have := LastIndex_append_cons pre [] ':' (by simp)
  simp only [portOf, this]
  rw [if_neg (by simp)]

theorem portOf_after_last (pre suf : GoString) (h : ':' ∉ suf) (hne : suf ≠ []) :
    portOf (pre ++ ':' :: suf) = some suf := by
  have hl := LastIndex_append_cons pre suf ':' h
  have hpos : 0 < suf.length := List.length_pos.mpr hne
  simp only [portOf, hl, sliceFrom, List.length_append, List.length_cons, Nat.cast_add,
    Nat.cast_one]
  rw [if_pos (by omega), if_pos (by omega)]
  have : ((pre.length : Int) + 1).toNat = pre.length + 1 := by omega
  rw [this]
  simp

theorem portOf_ne_none (a : GoString) : portOf a ≠ none := by
  have hlt := LastIndex_lt a ':'
  simp only [portOf, sliceFrom]
  by_cases h : 0 ≤ LastIndex a ':' ∧ LastIndex a ':' + 1 < (a.length : Int)
  · rw [if_pos h, if_pos (by omega)]
    simp
  · rw [if_neg h]
    simp

/-! ## Auxiliary facts: one line -/

/-- What a line other than the first does, in terms of its fields: it is skipped
for having fewer than 9 fields or a PID field `Atoi` rejects, or it gives the
record read off its fields. It never panics. -/
theorem parseLine_cases (line : GoString) :
    (parseLine line = .skip ∧
      ((Fields line).length < 9 ∨ ∃ f1, (Fields line)[1]? = some f1 ∧ Atoi f1 = none)) ∨
    (∃ r, parseLine line = .record r ∧ 9 ≤ (Fields line).length ∧
      (Fields line)[0]? = some r.Command ∧
      (∃ f1, (Fields line)[1]? = some f1 ∧ Atoi f1 = some r.PID) ∧
      (Fields line)[2]? = some r.User ∧
      (Fields line)[(Fields line).length - 2]? = some r.Address ∧
      portOf r.Address = some r.Port ∧ r.Raw = line) := by
  by_cases h : (Fields line).length < 9
  · left
    exact ⟨by simp [parseLine, h], Or.inl h⟩
  · have h9 : 9 ≤ (Fields line).length := by omega
    have e0 : index (Fields line) 0 = some ((Fields line)[0]) := by
      exact (index_natCast (Fields line) 0).trans (List.getElem?_eq_getElem (by omega))
    have e1 : index (Fields line) 1 = some ((Fields line)[1]) := by
      exact (index_natCast (Fields line) 1).trans (List.getElem?_eq_getElem (by omega))
    have e2 : index (Fields line) 2 = some ((Fields line)[2]) := by
      exact (index_natCast (Fields line) 2).trans (List.getElem?_eq_getElem (by omega))
    have ea : index (Fields line) (((Fields line).length : Int) - 2)
        = some ((Fields line)[(Fields line).length - 2]) := by
      rw [show (((Fields line).length : Int) - 2) = (((Fields line).length - 2 : Nat) : Int) by
        omega, index_natCast]
      exact List.getElem?_eq_getElem (by omega)
    cases hpid : Atoi ((Fields line)[1]) with
    | none =>
      left
      refine ⟨by simp [parseLine, h, e1, hpid], Or.inr ⟨_, List.getElem?_eq_getElem (by omega), hpid⟩⟩
    | some pid =>
      right
      cases hport : portOf ((Fields line)[(Fields line).length - 2]) with
      | none => exact absurd hport (portOf_ne_none _)
      | some port =>
        refine ⟨{ Command := (Fields line)[0], User := (Fields line)[2], PID := pid,
                  Address := (Fields line)[(Fields line).length - 2], Port := port,
                  Raw := line }, ?_, h9, ?_, ⟨_, List.getElem?_eq_getElem (by omega), hpid⟩,
                  ?_, ?_, hport, rfl⟩
        · simp [parseLine, h, e0, e1, e2, ea, hpid, hport]
        · exact List.getElem?_eq_getElem (by omega)
        · exact List.getElem?_eq_getElem (by omega)
        · exact List.getElem?_eq_getElem (by omega)

theorem parseLine_ne_panic (line : GoString) : parseLine line ≠ .panic := by
  rcases parseLine_cases line with ⟨h, _⟩ | ⟨r, h, _⟩ <;> rw [h] <;> simp

theorem parseLoop_false (lines : List GoString) (processes : List listeningProcess) :
    parseLoop lines false processes = some (processes ++ lines.filterMap lineRecord) := by
  induction lines generalizing processes with
  | nil => simp [parseLoop]
  | cons line rest ih =>
    have hp := parseLine_ne_panic line
    cases hl : parseLine line with
    | skip => simp [parseLoop, hl, ih, lineRecord]
    | record p => simp [parseLoop, hl, ih, lineRecord]
    | panic => exact absurd hl hp

theorem parseLoop_true (lines : List GoString) :
    parseLoop lines true [] = some (lines.tail.filterMap lineRecord) := by
  cases lines with
  | nil => simp [parseLoop]
  | cons line rest => simp [parseLoop, parseLoop_false]

theorem parseLsofOutput_eq (out : GoString) :
    parseLsofOutput out =
      if (scanLines out).2 then .error (.wrap "scan lsof output: ".toList .errTooLong)
      else .ok ((scanLines out).1.tail.filterMap lineRecord) := by
  simp only [parseLsofOutput, parseLoop_true]

/-! ## Auxiliary facts: the scanner and the lines of a text -/

theorem byteLen_nil : byteLen [] = 0 := rfl

theorem byteLen_append (a b : GoString) : byteLen (a ++ b) = byteLen a + byteLen b := by
  simp [byteLen]

theorem byteLen_replicate_ascii (n : Nat) (c : Char) (h : c.utf8Size = 1) :
    byteLen (List.replicate n c) = n := by
  induction n with
  | zero => rfl
  | succ k ih =>
    have : byteLen (List.replicate (k + 1) c) = c.utf8Size + byteLen (List.replicate k c) := by
      simp [byteLen, List.replicate_succ]
    rw [this, ih, h]; omega

theorem piecesFrom_nil_right (data : GoString) : piecesFrom data [] = List.splitOn '\n' data := by
  unfold piecesFrom
  cases List.splitOn '\n' data <;> simp [List.modifyHead]

theorem piecesFrom_nil (cur : GoString) : piecesFrom [] cur = [cur] := by
  simp [piecesFrom, List.splitOn, List.splitOnP_nil, List.modifyHead]

theorem piecesFrom_newline (cs cur : GoString) :
    piecesFrom ('\n' :: cs) cur = cur :: List.splitOn '\n' cs := by
  simp [piecesFrom, List.splitOn, List.splitOnP_cons, List.modifyHead]

theorem piecesFrom_cons (c : Char) (cs cur : GoString) (h : c ≠ '\n') :
    piecesFrom (c :: cs) cur = piecesFrom cs (cur ++ [c]) := by
  have hc : (c == '\n') = false := by simpa using h
  simp only [piecesFrom, List.splitOn, List.splitOnP_cons, hc]
  cases List.splitOnP (fun x => x == '\n') cs <;> simp [List.modifyHead]

theorem scanFrom_newline (cs cur : GoString) :
    scanFrom ('\n' :: cs) cur =
      if MaxScanTokenSize ≤ byteLen cur then ([], true)
      else ((dropCR cur) :: (scanFrom cs []).1, (scanFrom cs []).2) := by
  simp [scanFrom]

theorem scanFrom_cons (c : Char) (cs cur : GoString) (h : c ≠ '\n') :
    scanFrom (c :: cs) cur = scanFrom cs (cur ++ [c]) := by
  simp [scanFrom, h]

theorem scanFrom_append (seg rest cur : GoString) (h : '\n' ∉ seg) :
    scanFrom (seg ++ rest) cur = scanFrom rest (cur ++ seg) := by
  induction seg generalizing cur with
  | nil => simp
  | cons c cs ih =>
    have hc : c ≠ '\n' := fun e => h (by simp [e])
    have hcs : '\n' ∉ cs := fun e => h (by simp [e])
    rw [List.cons_append, scanFrom_cons c _ cur hc, ih _ hcs]
    simp

/-- A line of `MaxScanTokenSize` bytes or more makes `scanner.Err()` non-nil. -/
theorem scanFrom_error (data cur : GoString)
    (h : ∃ l ∈ piecesFrom data cur, MaxScanTokenSize ≤ byteLen l) : (scanFrom data cur).2 = true := by
  induction data generalizing cur with
  | nil =>
    rw [piecesFrom_nil] at h
    obtain ⟨l, hl, hlong⟩ := h
    rw [List.mem_singleton] at hl
    subst hl
    have hne : l ≠ [] := by
      rintro rfl
      simp [byteLen, MaxScanTokenSize] at hlong
    simp [scanFrom, hne, hlong]
  | cons c cs ih =>
    by_cases hc : c = '\n'
    · subst hc
      rw [piecesFrom_newline] at h
      rw [scanFrom_newline]
      by_cases hcur : MaxScanTokenSize ≤ byteLen cur
      · simp [hcur]
      · obtain ⟨l, hl, hlong⟩ := h
        rcases List.mem_cons.mp hl with rfl | hl
        · exact absurd hlong hcur
        · rw [if_neg hcur]
          exact ih [] ⟨l, by rwa [piecesFrom_nil_right], hlong⟩
    · rw [piecesFrom_cons c cs cur hc] at h
      rw [scanFrom_cons c cs cur hc]
      exact ih _ h

/-- When every line is shorter than `MaxScanTokenSize` bytes the scanner ends
without error, and the lines it yields are the pieces between the newlines
without their final carriage return; only an empty piece at the very end is
not yielded. -/
theorem scanFrom_ok (f : GoString → Option listeningProcess) (hf : f [] = none)
    (data cur : GoString) (h : ∀ l ∈ piecesFrom data cur, byteLen l < MaxScanTokenSize) :
    (scanFrom data cur).2 = false ∧
      (scanFrom data cur).1.filterMap f = (piecesFrom data cur).filterMap (fun l => f (dropCR l)) ∧
      (scanFrom data cur).1.tail.filterMap f
        = (piecesFrom data cur).tail.filterMap (fun l => f (dropCR l)) := by
  have hd : dropCR [] = [] := rfl
  induction data generalizing cur with
  | nil =>
    rw [piecesFrom_nil] at h ⊢
    have hs := h cur (List.mem_singleton.mpr rfl)
    by_cases hne : cur = []
    · subst hne
      simp [scanFrom, hd, hf]
    · simp [scanFrom, hne, Nat.not_le.mpr hs, List.filterMap_cons]
  | cons c cs ih =>
    by_cases hc : c = '\n'
    · subst hc
      rw [piecesFrom_newline] at h ⊢
      have hs := h cur (List.mem_cons_self _ _)
      have ih' := ih [] (by
        intro l hl
        rw [piecesFrom_nil_right] at hl
        exact h l (List.mem_cons_of_mem _ hl))
      rw [piecesFrom_nil_right] at ih'
      rw [scanFrom_newline, if_neg (Nat.not_le.mpr hs)]
      refine ⟨ih'.1, ?_, ?_⟩
      · simp only [List.filterMap_cons, ih'.2.1]
      · simp only [List.tail_cons, ih'.2.1]
    · rw [piecesFrom_cons c cs cur hc] at h ⊢
      rw [scanFrom_cons c cs cur hc]
      exact ih _ h

theorem fieldsFrom_cons (c : Char) (cs cur : GoString) :
    fieldsFrom (c :: cs) cur
      = if isSpace c then (if cur = [] then fieldsFrom cs [] else cur :: fieldsFrom cs [])
        else fieldsFrom cs (cur ++ [c]) := rfl

theorem fieldsFrom_spaces (t cur : GoString) (ht : ∀ c ∈ t, isSpace c = true) :
    fieldsFrom t cur = fieldsFrom [] cur := by
  induction t generalizing cur with
  | nil => rfl
  | cons c cs ih =>
    have hc : isSpace c = true := ht c (List.mem_cons_self _ _)
    have ih' := ih [] (fun d hd => ht d (List.mem_cons_of_mem _ hd))
    rw [fieldsFrom_cons, if_pos hc, ih']
    by_cases hcur : cur = []
    · simp [hcur, fieldsFrom]
    · simp [hcur, fieldsFrom]

theorem fieldsFrom_append_spaces (s t cur : GoString) (ht : ∀ c ∈ t, isSpace c = true) :
    fieldsFrom (s ++ t) cur = fieldsFrom s cur := by
  induction s generalizing cur with
  | nil => exact fieldsFrom_spaces t cur ht
  | cons c cs ih => rw [List.cons_append, fieldsFrom_cons, fieldsFrom_cons, ih, ih]

theorem fieldsFrom_no_space (s cur : GoString) (hs : ∀ c ∈ s, isSpace c = false) :
    fieldsFrom s cur = if cur ++ s = [] then [] else [cur ++ s] := by
  induction s generalizing cur with
  | nil => simp [fieldsFrom]
  | cons c cs ih =>
    have hc : isSpace c = false := hs c (List.mem_cons_self _ _)
    simp only [fieldsFrom, hc, Bool.false_eq_true, if_false]
    rw [ih _ (fun d hd => hs d (List.mem_cons_of_mem _ hd))]
    simp

theorem dropCR_eq (l : GoString) : dropCR l = l ∨ l = dropCR l ++ ['\r'] := by
  unfold dropCR
  by_cases h : l.getLast? = some '\r'
  · right
    rw [if_pos h]
    obtain ⟨ys, hys⟩ := List.getLast?_eq_some_iff.mp h
    rw [hys]; simp
  · left; rw [if_neg h]

theorem Fields_dropCR (l : GoString) : Fields (dropCR l) = Fields l := by
  rcases dropCR_eq l with h | h
  · rw [h]
  · conv_rhs => rw [h]
    unfold Fields
    rw [fieldsFrom_append_spaces _ _ _ (by intro c hc; rw [List.mem_singleton.mp hc]; rfl)]

theorem lineRecord_nil : lineRecord [] = none := by decide

theorem lineRecord_eq_some (line : GoString) (r : listeningProcess) :
    lineRecord line = some r ↔ parseLine line = .record r := by
  unfold lineRecord
  cases parseLine line <;> simp

theorem lineRecord_eq_none (line : GoString) :
    lineRecord line = none ↔
      ((Fields line).length < 9 ∨ ∃ f1, (Fields line)[1]? = some f1 ∧ Atoi f1 = none) := by
  rcases parseLine_cases line with ⟨h, hs⟩ | ⟨r, h, h9, _, ⟨f1, hf1, hp⟩, _⟩
  · simp [lineRecord, h, hs]
  · have : ¬ ((Fields line).length < 9 ∨ ∃ f1, (Fields line)[1]? = some f1 ∧ Atoi f1 = none) := by
      rintro (hlt | ⟨g, hg, hn⟩)
      · omega
      · rw [hf1] at hg
        cases hg
        rw [hp] at hn
        cases hn
    simp [lineRecord, h, this]

theorem splitOn_of_not_mem (l : GoString) (h : '\n' ∉ l) : List.splitOn '\n' l = [l] := by
  unfold List.splitOn
  apply List.splitOnP_eq_single
  intro x hx hp
  have : x = '\n' := by simpa using hp
  exact h (this ▸ hx)

theorem splitOn_append_newline (l rest : GoString) (h : '\n' ∉ l) :
    List.splitOn '\n' (l ++ '\n' :: rest) = l :: List.splitOn '\n' rest := by
  unfold List.splitOn
  apply List.splitOnP_first
  · intro x hx hp
    have : x = '\n' := by simpa using hp
    exact h (this ▸ hx)
  · simp

/-- With every line shorter than `MaxScanTokenSize` bytes, the parser gives the
records of the lines after the first, one line at a time. -/
theorem parseLsofOutput_ok (out : GoString)
    (h : ∀ l ∈ List.splitOn '\n' out, byteLen l < MaxScanTokenSize) :
    parseLsofOutput out
      = .ok ((List.splitOn '\n' out).tail.filterMap (fun l => lineRecord (dropCR l))) := by
  have hs := scanFrom_ok lineRecord lineRecord_nil out [] (by rwa [piecesFrom_nil_right])
  rw [piecesFrom_nil_right] at hs
  rw [parseLsofOutput_eq]
  simp only [scanLines, hs.1, hs.2.2]
  simp

/-- A line of `MaxScanTokenSize` bytes or more makes the parser fail. -/
theorem parseLsofOutput_tooLong (out : GoString)
    (h : ∃ l ∈ List.splitOn '\n' out, MaxScanTokenSize ≤ byteLen l) :
    parseLsofOutput out = .error (.wrap "scan lsof output: ".toList .errTooLong) := by
  have hs := scanFrom_error out [] (by rwa [piecesFrom_nil_right])
  rw [parseLsofOutput_eq]
  simp only [scanLines, hs]
  simp

theorem mem_parseLsofOutput (out : GoString) (rs : List listeningProcess)
    (h : parseLsofOutput out = .ok rs) (r : listeningProcess) (hr : r ∈ rs) :
    ∃ line, parseLine line = .record r := by
  rw [parseLsofOutput_eq] at h
  split_ifs at h
  cases h
  obtain ⟨line, _, hl⟩ := List.mem_filterMap.mp hr
  exact ⟨line, (lineRecord_eq_some line r).mp hl⟩

theorem Atoi_range (s : GoString) (v : Int) (h : Atoi s = some v) :
    -(2 : Int) ^ 63 ≤ v ∧ v < (2 : Int) ^ 63 := by
  unfold Atoi at h
  split at h
  · cases h
  · rename_i c cs
    simp only at h
    split_ifs at h
    all_goals
      split at h
      · cases h
      · rename_i n hn
        split_ifs at h
        all_goals
          cases h
          constructor <;> omega

theorem parseLine_record_fields_aux (line : GoString) (pid : Int)
    (h9 : 9 ≤ (Fields line).length)
    (hpid : ∃ f1, (Fields line)[1]? = some f1 ∧ Atoi f1 = some pid) :
    ∃ r, parseLine line = .record r ∧
      (Fields line)[0]? = some r.Command ∧ r.PID = pid ∧
      (Fields line)[2]? = some r.User ∧
      (Fields line)[(Fields line).length - 2]? = some r.Address ∧ r.Raw = line := by
  obtain ⟨g, hg, hgp⟩ := hpid
  rcases parseLine_cases line with
    ⟨_, hlt | ⟨f1, hf1, hn⟩⟩ | ⟨r, h, _, h0, ⟨f1, hf1, hp⟩, h2, ha, _, hraw⟩
  · omega
  · rw [hg] at hf1
    cases hf1
    rw [hgp] at hn
    cases hn
  · rw [hg] at hf1
    cases hf1
    rw [hgp] at hp
    cases hp
    exact ⟨r, h, h0, rfl, h2, ha, hraw⟩

/-! ## The parser of `listListeningProcesses` -/

/-- C1 (as amended). For every `lsof` output whose lines are all shorter than
`bufio.MaxScanTokenSize` (65536) bytes, the parser returns without error the
records of the lines after the first, each line giving its record or none
independently of the other lines and in order; and a line gives no record if
and only if `strings.Fields` finds fewer than 9 fields in it or `strconv.Atoi`
rejects field 1. -/
theorem parse_lines_skip_or_record (out : GoString)
    (hshort : ∀ l ∈ List.splitOn '\n' out, byteLen l < MaxScanTokenSize) :
    parseLsofOutput out
        = .ok ((List.splitOn '\n' out).tail.filterMap (fun l => lineRecord (dropCR l))) ∧
      ∀ line, (lineRecord (dropCR line) = none ↔
        ((Fields line).length < 9 ∨ ∃ f1, (Fields line)[1]? = some f1 ∧ Atoi f1 = none)) ∧
        (lineRecord (dropCR line) ≠ none ↔ ∃ r, parseLine (dropCR line) = .record r) := by
  refine ⟨parseLsofOutput_ok out hshort, fun line => ⟨?_, ?_⟩⟩
  · rw [lineRecord_eq_none, Fields_dropCR]
  · constructor
    · intro h
      cases hr : lineRecord (dropCR line) with
      | none => exact absurd hr h
      | some r => exact ⟨r, (lineRecord_eq_some _ r).mp hr⟩
    · rintro ⟨r, hr⟩ hn
      rw [(lineRecord_eq_some _ r).mpr hr] at hn
      cases hn

/-- Witness for C1: the sample listing, where the line of 8 fields and the line
with PID field `x` are dropped and the two lines around them are parsed. -/
theorem parse_lines_skip_or_record_witness :
    (∀ l ∈ List.splitOn '\n' sampleListing, byteLen l < MaxScanTokenSize) ∧
      parseLsofOutput sampleListing = .ok sampleRecords :=
  ⟨by decide, (parse_lines_skip_or_record sampleListing (by decide)).1.trans (by decide)⟩

/-- C1 fails as stated: a line of 65536 bytes after a good data line has a single
field, so it is a line to skip, yet it makes the parser return an error and
lose the record of the line before it. -/
theorem parse_skipped_line_error :
    (Fields (List.replicate 65536 'x')).length < 9 ∧
      parseLsofOutput ("H\n".toList ++ sampleLine ++ '\n' :: List.replicate 65536 'x')
        = .error (.wrap "scan lsof output: ".toList .errTooLong) ∧
      parseLsofOutput ("H\n".toList ++ sampleLine ++ ['\n'])
        = .ok [{ Command := "node".toList, User := "u".toList, PID := 5,
                 Address := "127.0.0.1:8080".toList, Port := "8080".toList, Raw := sampleLine }] := by
  have hsp : ∀ c ∈ List.replicate 65536 'x', isSpace c = false := by
    intro c hc
    rw [List.eq_of_mem_replicate hc]
    rfl
  have hnl : '\n' ∉ List.replicate 65536 'x' := by
    intro hc
    exact absurd (List.eq_of_mem_replicate hc) (by decide)
  have hlen : MaxScanTokenSize ≤ byteLen (List.replicate 65536 'x') := by
    rw [byteLen_replicate_ascii _ _ (by decide)]
    decide
  generalize List.replicate 65536 'x' = long at hsp hnl hlen ⊢
  refine ⟨?_, ?_, by decide⟩
  · unfold Fields
    rw [fieldsFrom_no_space _ _ hsp]
    split_ifs <;> simp
  · apply parseLsofOutput_tooLong
    refine ⟨long, ?_, hlen⟩
    have e : "H\n".toList ++ sampleLine ++ '\n' :: long
        = ['H'] ++ '\n' :: (sampleLine ++ '\n' :: long) := rfl
    rw [e, splitOn_append_newline _ _ (by decide), splitOn_append_newline _ _ (by decide),
      splitOn_of_not_mem _ hnl]
    exact List.mem_cons_of_mem _ (List.mem_cons_of_mem _ (List.mem_singleton.mpr rfl))

/-- C2. A line other than the first with at least 9 fields and a PID field that
`strconv.Atoi` accepts with value `pid` gives the record whose Command is field
0, PID is `pid`, User is field 2, Address is the second-to-last field and Raw is
the line itself. -/
theorem parseLine_record_fields (line : GoString) (pid : Int)
    (h9 : 9 ≤ (Fields line).length)
    (hpid : ∃ f1, (Fields line)[1]? = some f1 ∧ Atoi f1 = some pid) :
    ∃ r, parseLine line = .record r ∧
      (Fields line)[0]? = some r.Command ∧ r.PID = pid ∧
      (Fields line)[2]? = some r.User ∧
      (Fields line)[(Fields line).length - 2]? = some r.Address ∧ r.Raw = line :=
  parseLine_record_fields_aux line pid h9 hpid

/-- Witness for C2: the sample data line. -/
theorem parseLine_record_fields_witness :
    ∃ r, parseLine sampleLine = .record r ∧
      (Fields sampleLine)[0]? = some r.Command ∧ r.PID = 5 ∧
      (Fields sampleLine)[2]? = some r.User ∧
      (Fields sampleLine)[(Fields sampleLine).length - 2]? = some r.Address ∧
      r.Raw = sampleLine :=
  parseLine_record_fields sampleLine 5 (by decide) ⟨"5".toList, by decide, by decide⟩

/-- C3. In every record the parser returns, Port is the part of Address after its
last `:` when there is one and it is not the final character; it is Address
itself when Address has no `:` or ends in `:`. So `127.0.0.1:8080` gives
`8080`. -/
theorem port_derivation (out : GoString) (rs : List listeningProcess)
    (h : parseLsofOutput out = .ok rs) :
    (∀ r ∈ rs,
      (∀ pre suf, r.Address = pre ++ ':' :: suf → ':' ∉ suf → suf ≠ [] → r.Port = suf) ∧
      (':' ∉ r.Address → r.Port = r.Address) ∧
      (∀ pre, r.Address = pre ++ [':'] → r.Port = r.Address)) ∧
    portOf "127.0.0.1:8080".toList = some "8080".toList ∧
    portOf "localhost".toList = some "localhost".toList ∧
    portOf "127.0.0.1:".toList = some "127.0.0.1:".toList := by
  refine ⟨fun r hr => ?_, by decide, by decide, by decide⟩
  obtain ⟨line, hl⟩ := mem_parseLsofOutput out rs h r hr
  have hport : portOf r.Address = some r.Port := by
    rcases parseLine_cases line with ⟨hs, _⟩ | ⟨r', h', _, _, _, _, _, hp, _⟩
    · rw [hs] at hl
      cases hl
    · rw [h'] at hl
      cases hl
      exact hp
  refine ⟨?_, ?_, ?_⟩
  · intro pre suf ha hs hne
    rw [ha, portOf_after_last pre suf hs hne] at hport
    exact (Option.some.inj hport).symm
  · intro hn
    rw [portOf_of_not_mem _ hn] at hport
    exact (Option.some.inj hport).symm
  · intro pre ha
    rw [ha, portOf_trailing] at hport
    rw [ha]
    exact (Option.some.inj hport).symm

/-- Witness for C3: the first record of the listing with two sockets of one
process, whose Address `127.0.0.1:8080` gives Port `8080`. -/
theorem port_derivation_witness :
    parseLsofOutput twoSocketListing = .ok twoSocketRecords ∧
      nodeOn8080.Port = "8080".toList :=
  ⟨by decide,
    ((port_derivation twoSocketListing twoSocketRecords (by decide)).1 nodeOn8080
      (by decide)).1 "127.0.0.1".toList "8080".toList (by decide) (by decide) (by decide)⟩

/-- C4 (as amended). The first line is discarded whatever it holds, provided it is
shorter than `bufio.MaxScanTokenSize` (65536) bytes: an empty output, an output
that is only the first line, with or without its newline, gives no record and
no error; and the result for a first line followed by any text is the result
for an empty first line followed by that text. -/
theorem first_line_discarded (hdr : GoString) (hnl : '\n' ∉ hdr)
    (hshort : byteLen hdr < MaxScanTokenSize) :
    parseLsofOutput [] = .ok [] ∧
      parseLsofOutput hdr = .ok [] ∧
      parseLsofOutput (hdr ++ ['\n']) = .ok [] ∧
      ∀ rest, parseLsofOutput (hdr ++ '\n' :: rest) = parseLsofOutput ('\n' :: rest) := by
  have h0 : byteLen [] < MaxScanTokenSize := by decide
  refine ⟨by decide, ?_, ?_, ?_⟩
  · rw [parseLsofOutput_ok hdr (by
      rw [splitOn_of_not_mem _ hnl]
      intro l hl
      rw [List.mem_singleton.mp hl]
      exact hshort), splitOn_of_not_mem _ hnl]
    rfl
  · have e : List.splitOn '\n' (hdr ++ ['\n']) = [hdr, []] := by
      rw [splitOn_append_newline _ _ hnl, splitOn_of_not_mem _ (List.not_mem_nil _)]
    rw [parseLsofOutput_ok _ (by
      rw [e]
      intro l hl
      rcases List.mem_cons.mp hl with rfl | hl
      · exact hshort
      · rw [List.mem_singleton.mp hl]
        exact h0), e]
    rfl
  · intro rest
    have e1 : List.splitOn '\n' (hdr ++ '\n' :: rest) = hdr :: List.splitOn '\n' rest :=
      splitOn_append_newline _ _ hnl
    have e2 : List.splitOn '\n' ('\n' :: rest) = [] :: List.splitOn '\n' rest :=
      splitOn_append_newline [] rest (List.not_mem_nil _)
    by_cases hr : ∀ l ∈ List.splitOn '\n' rest, byteLen l < MaxScanTokenSize
    · rw [parseLsofOutput_ok (hdr ++ '\n' :: rest) (by
        rw [e1]
        intro l hl
        rcases List.mem_cons.mp hl with rfl | hl
        · exact hshort
        · exact hr l hl),
        parseLsofOutput_ok ('\n' :: rest) (by
        rw [e2]
        intro l hl
        rcases List.mem_cons.mp hl with rfl | hl
        · exact h0
        · exact hr l hl), e1, e2]
      rfl
    · obtain ⟨l, hl, hlong⟩ : ∃ l ∈ List.splitOn '\n' rest, MaxScanTokenSize ≤ byteLen l := by
        by_contra hc
        exact hr (fun l hl => Nat.lt_of_not_le (fun hle => hc ⟨l, hl, hle⟩))
      rw [parseLsofOutput_tooLong (hdr ++ '\n' :: rest)
          ⟨l, by rw [e1]; exact List.mem_cons_of_mem _ hl, hlong⟩,
        parseLsofOutput_tooLong ('\n' :: rest)
          ⟨l, by rw [e2]; exact List.mem_cons_of_mem _ hl, hlong⟩]

/-- Witness for C4: a first line that is itself a well-formed data line. -/
theorem first_line_discarded_witness :
    parseLine sampleLine ≠ .skip ∧ parseLsofOutput sampleLine = .ok [] ∧
      parseLsofOutput (sampleLine ++ ['\n']) = .ok [] :=
  ⟨by decide, (first_line_discarded sampleLine (by decide) (by decide)).2.1,
    (first_line_discarded sampleLine (by decide) (by decide)).2.2.1⟩

/-- C4 fails as stated: an output that is only a header line, of 65536 bytes,
gives an error. -/
theorem header_only_error :
    parseLsofOutput (List.replicate 65536 'H')
      = .error (.wrap "scan lsof output: ".toList .errTooLong) := by
  have hnl : '\n' ∉ List.replicate 65536 'H' := by
    intro hc
    exact absurd (List.eq_of_mem_replicate hc) (by decide)
  have hlen : MaxScanTokenSize ≤ byteLen (List.replicate 65536 'H') := by
    rw [byteLen_replicate_ascii _ _ (by decide)]
    decide
  generalize List.replicate 65536 'H' = long at hnl hlen ⊢
  apply parseLsofOutput_tooLong
  exact ⟨long, by rw [splitOn_of_not_mem _ hnl]; exact List.mem_singleton.mpr rfl, hlen⟩

/-- C5 (as amended). An output made of a header line and N data lines, each with
at least 9 fields and a PID field `strconv.Atoi` accepts, all lines shorter than
`bufio.MaxScanTokenSize` (65536) bytes, with or without a newline after the last
line, gives exactly N records, the i-th being the record of the i-th data line
(without the carriage return that may end it). -/
theorem header_plus_data_lines (out hdr : GoString) (ls : List GoString)
    (hout : List.splitOn '\n' out = hdr :: ls ∨ List.splitOn '\n' out = hdr :: ls ++ [[]])
    (hshort : ∀ l ∈ hdr :: ls, byteLen l < MaxScanTokenSize)
    (hwf : ∀ l ∈ ls, 9 ≤ (Fields l).length ∧
      ∃ f1 pid, (Fields l)[1]? = some f1 ∧ Atoi f1 = some pid) :
    ∃ rs, parseLsofOutput out = .ok rs ∧ rs.length = ls.length ∧
      List.Forall₂ (fun l r => parseLine (dropCR l) = .record r) ls rs := by
  have hrec : ∀ l ∈ ls, ∃ r, parseLine (dropCR l) = .record r := by
    intro l hl
    obtain ⟨h9, f1, pid, hf1, hp⟩ := hwf l hl
    rw [← Fields_dropCR] at h9 hf1
    obtain ⟨r, hr, _⟩ := parseLine_record_fields_aux (dropCR l) pid h9 ⟨f1, hf1, hp⟩
    exact ⟨r, hr⟩
  have hall : ∀ l ∈ List.splitOn '\n' out, byteLen l < MaxScanTokenSize := by
    intro l hl
    rcases hout with e | e
    · rw [e] at hl
      exact hshort l hl
    · rw [e, List.cons_append] at hl
      rcases List.mem_cons.mp hl with rfl | hl
      · exact hshort _ (List.mem_cons_self _ _)
      · rcases List.mem_append.mp hl with hl | hl
        · exact hshort l (List.mem_cons_of_mem _ hl)
        · rw [List.mem_singleton.mp hl]
          decide
  have htail : (List.splitOn '\n' out).tail.filterMap (fun l => lineRecord (dropCR l))
      = ls.filterMap (fun l => lineRecord (dropCR l)) := by
    rcases hout with e | e
    · rw [e]; rfl
    · rw [e, List.cons_append, List.tail_cons, List.filterMap_append]
      have : List.filterMap (fun l => lineRecord (dropCR l)) [[]] = [] := by decide
      rw [this, List.append_nil]
  refine ⟨ls.filterMap (fun l => lineRecord (dropCR l)), ?_, ?_, ?_⟩
  · rw [parseLsofOutput_ok out hall, htail]
  · clear hwf hshort hout hall htail
    induction ls with
    | nil => rfl
    | cons l ls ih =>
      obtain ⟨r, hr⟩ := hrec l (List.mem_cons_self _ _)
      rw [List.filterMap_cons, (lineRecord_eq_some _ r).mpr hr, List.length_cons,
        List.length_cons, ih (fun m hm => hrec m (List.mem_cons_of_mem _ hm))]
  · clear hwf hshort hout hall htail
    induction ls with
    | nil => exact List.Forall₂.nil
    | cons l ls ih =>
      obtain ⟨r, hr⟩ := hrec l (List.mem_cons_self _ _)
      rw [List.filterMap_cons, (lineRecord_eq_some _ r).mpr hr]
      exact List.Forall₂.cons hr (ih (fun m hm => hrec m (List.mem_cons_of_mem _ hm)))

/-- Witness for C5: a header and two data lines. -/
theorem header_plus_data_lines_witness :
    ∃ rs, parseLsofOutput sampleTwoLines = .ok rs ∧ rs.length = 2 ∧
      List.Forall₂ (fun l r => parseLine (dropCR l) = .record r)
        [sampleLine, "py 7 u 3u IPv4 0x3 0t0 TCP *:9000 (LISTEN)\r".toList] rs :=
  header_plus_data_lines sampleTwoLines "COMMAND PID USER".toList
    [sampleLine, "py 7 u 3u IPv4 0x3 0t0 TCP *:9000 (LISTEN)\r".toList] (Or.inr (by decide))
    (by decide)
    (List.forall_mem_cons.mpr ⟨⟨by decide, "5".toList, 5, by decide, by decide⟩,
      List.forall_mem_cons.mpr ⟨⟨by decide, "7".toList, 7, by decide, by decide⟩,
        fun _ h => absurd h (List.not_mem_nil _)⟩⟩)

/-- C5 fails as stated: a header and one data line with 10 fields and PID field
`5`, followed by 65536 spaces, give an error and no record. -/
theorem long_data_line_error :
    9 ≤ (Fields (sampleLine ++ List.replicate 65536 ' ')).length ∧
      (Fields (sampleLine ++ List.replicate 65536 ' '))[1]? = some "5".toList ∧
      Atoi "5".toList = some 5 ∧
      parseLsofOutput ("H\n".toList ++ (sampleLine ++ List.replicate 65536 ' ') ++ ['\n'])
        = .error (.wrap "scan lsof output: ".toList .errTooLong) := by
  have hsp : ∀ c ∈ List.replicate 65536 ' ', isSpace c = true := by
    intro c hc
    rw [List.eq_of_mem_replicate hc]
    rfl
  have hnl : '\n' ∉ List.replicate 65536 ' ' := by
    intro hc
    exact absurd (List.eq_of_mem_replicate hc) (by decide)
  have hlen : MaxScanTokenSize ≤ byteLen (List.replicate 65536 ' ') := by
    rw [byteLen_replicate_ascii _ _ (by decide)]
    decide
  generalize List.replicate 65536 ' ' = pad at hsp hnl hlen ⊢
  have hf : Fields (sampleLine ++ pad) = Fields sampleLine := fieldsFrom_append_spaces _ _ _ hsp
  refine ⟨by rw [hf]; decide, by rw [hf]; decide, by decide, ?_⟩
  apply parseLsofOutput_tooLong
  refine ⟨sampleLine ++ pad, ?_, ?_⟩
  · have e : "H\n".toList ++ (sampleLine ++ pad) ++ ['\n']
        = ['H'] ++ '\n' :: ((sampleLine ++ pad) ++ '\n' :: []) := rfl
    have hnl' : '\n' ∉ sampleLine ++ pad := by
      intro hc
      rcases List.mem_append.mp hc with hc | hc
      · exact absurd hc (by decide)
      · exact hnl hc
    rw [e, splitOn_append_newline _ _ (by decide), splitOn_append_newline _ _ hnl']
    exact List.mem_cons_of_mem _ (List.mem_cons_self _ _)
  · rw [byteLen_append]
    omega

/-- C8 (as amended). Every record the parser returns has as PID the value
`strconv.Atoi` gives for field 1 of its line, an integer of the `int` range that
need not be positive. -/
theorem pid_is_atoi_of_field (out : GoString) (rs : List listeningProcess)
    (h : parseLsofOutput out = .ok rs) :
    ∀ r ∈ rs, (∃ f1, (Fields r.Raw)[1]? = some f1 ∧ Atoi f1 = some r.PID) ∧
      -(2 : Int) ^ 63 ≤ r.PID ∧ r.PID < (2 : Int) ^ 63 := by
  intro r hr
  obtain ⟨line, hl⟩ := mem_parseLsofOutput out rs h r hr
  rcases parseLine_cases line with ⟨hs, _⟩ | ⟨r', h', _, _, ⟨f1, hf1, hp⟩, _, _, _, hraw⟩
  · rw [hs] at hl
    cases hl
  · rw [h'] at hl
    cases hl
    rw [hraw]
    exact ⟨⟨f1, hf1, hp⟩, Atoi_range f1 _ hp⟩

/-- Witness for C8: the first record of the listing with two sockets of one
process. -/
theorem pid_is_atoi_of_field_witness :
    parseLsofOutput twoSocketListing = .ok twoSocketRecords ∧
      (∃ f1, (Fields nodeOn8080.Raw)[1]? = some f1 ∧ Atoi f1 = some nodeOn8080.PID) ∧
      -(2 : Int) ^ 63 ≤ nodeOn8080.PID ∧ nodeOn8080.PID < (2 : Int) ^ 63 :=
  ⟨by decide,
    pid_is_atoi_of_field twoSocketListing twoSocketRecords (by decide) nodeOn8080 (by decide)⟩

/-- C8 fails as stated: data lines with PID field `0` and `-5` are not discarded;
they give records with PID 0 and -5. -/
theorem nonpositive_pid_records :
    parseLsofOutput nonPositiveListing
      = .ok [{ Command := "a".toList, User := "u".toList, PID := 0, Address := "*:80".toList,
               Port := "80".toList, Raw := "a 0 u 1 2 3 4 TCP *:80 (LISTEN)".toList },
             { Command := "b".toList, User := "u".toList, PID := -5, Address := "*:81".toList,
               Port := "81".toList, Raw := "b -5 u 1 2 3 4 TCP *:81 (LISTEN)".toList }] := by
  decide

/-! ## Filtering and deduplication -/

theorem filterLoop_eq (t : GoString) (ps acc : List listeningProcess) :
    filterLoop t ps acc = acc ++ ps.filter (fun p => decide (p.Port = t)) := by
  induction ps generalizing acc with
  | nil => simp [filterLoop]
  | cons p ps ih =>
    by_cases h : p.Port = t
    · simp [filterLoop, h, ih]
    · simp [filterLoop, h, ih]

theorem filter_eq (ps : List listeningProcess) (t : GoString) :
    filterListeningProcessesByPort ps t = ps.filter (fun p => decide (p.Port = t)) := by
  simp [filterListeningProcessesByPort, filterLoop_eq]

/-- C6. `filterListeningProcessesByPort` returns the records whose Port equals the
target string, in their order and with their multiplicity: it is the filter of
the input by equality of Port, a sublist of the input, and a record is in it if
and only if it is in the input with exactly that Port; target `8080` selects no
record with Port `8080x` or `18080`. -/
theorem filter_exact_subsequence (ps : List listeningProcess) (t : GoString) :
    filterListeningProcessesByPort ps t = ps.filter (fun p => decide (p.Port = t)) ∧
      (filterListeningProcessesByPort ps t).Sublist ps ∧
      (∀ r, r ∈ filterListeningProcessesByPort ps t ↔ r ∈ ps ∧ r.Port = t) ∧
      (∀ r, r.Port = t → (filterListeningProcessesByPort ps t).count r = ps.count r) ∧
      (∀ r, r.Port = "8080x".toList ∨ r.Port = "18080".toList →
        r ∉ filterListeningProcessesByPort ps "8080".toList) := by
  refine ⟨filter_eq ps t, ?_, ?_, ?_, ?_⟩
  · rw [filter_eq]
    exact List.filter_sublist ps
  · intro r
    rw [filter_eq, List.mem_filter]
    simp
  · intro r hr
    rw [filter_eq, List.count_filter]
    simpa using hr
  · intro r hr hmem
    rw [filter_eq, List.mem_filter] at hmem
    have hp : r.Port = "8080".toList := by simpa using hmem.2
    rcases hr with h | h
    · rw [hp] at h
      exact absurd h (by decide)
    · rw [hp] at h
      exact absurd h (by decide)

theorem uniqueLoop_eq (ps : List listeningProcess) (seen : List Int)
    (unique : List listeningProcess) :
    uniqueLoop ps seen unique = unique ++ firstOfPID ps seen := by
  induction ps generalizing seen unique with
  | nil => simp [uniqueLoop, firstOfPID]
  | cons p ps ih =>
    by_cases h : p.PID ∈ seen
    · simp [uniqueLoop, firstOfPID, h, ih]
    · simp [uniqueLoop, firstOfPID, h, ih]

theorem unique_eq (ps : List listeningProcess) : uniqueListeningByPID ps = firstOfPID ps [] := by
  simp [uniqueListeningByPID, uniqueLoop_eq]

theorem firstOfPID_sublist (ps : List listeningProcess) (seen : List Int) :
    (firstOfPID ps seen).Sublist ps := by
  induction ps generalizing seen with
  | nil => simp [firstOfPID]
  | cons p ps ih =>
    by_cases h : p.PID ∈ seen
    · simp only [firstOfPID, h, if_true]
      exact (ih seen).cons p
    · simp only [firstOfPID, h, if_false]
      exact (ih _).cons₂ p

theorem mem_firstOfPID_pid (ps : List listeningProcess) (seen : List Int) (pid : Int) :
    pid ∈ (firstOfPID ps seen).map (fun p => p.PID) ↔
      pid ∈ ps.map (fun p => p.PID) ∧ pid ∉ seen := by
  induction ps generalizing seen with
  | nil => simp [firstOfPID]
  | cons p ps ih =>
    by_cases h : p.PID ∈ seen
    · simp only [firstOfPID, h, if_true, ih, List.map_cons, List.mem_cons]
      constructor
      · rintro ⟨h1, h2⟩
        exact ⟨Or.inr h1, h2⟩
      · rintro ⟨h1 | h1, h2⟩
        · exact absurd (h1 ▸ h) h2
        · exact ⟨h1, h2⟩
    · simp only [firstOfPID, h, if_false, List.map_cons, List.mem_cons, ih, not_or]
      constructor
      · rintro (h1 | ⟨h1, h2, h3⟩)
        · exact ⟨Or.inl h1, h1 ▸ h⟩
        · exact ⟨Or.inr h1, h3⟩
      · rintro ⟨h1 | h1, h2⟩
        · exact Or.inl h1
        · by_cases e : pid = p.PID
          · exact Or.inl e
          · exact Or.inr ⟨h1, e, h2⟩

theorem firstOfPID_nodup (ps : List listeningProcess) (seen : List Int) :
    ((firstOfPID ps seen).map (fun p => p.PID)).Nodup := by
  induction ps generalizing seen with
  | nil => simp [firstOfPID]
  | cons p ps ih =>
    by_cases h : p.PID ∈ seen
    · simp only [firstOfPID, h, if_true]
      exact ih seen
    · simp only [firstOfPID, h, if_false, List.map_cons, List.nodup_cons]
      refine ⟨?_, ih _⟩
      intro hm
      exact ((mem_firstOfPID_pid ps _ _).mp hm).2 (List.mem_cons_self _ _)

theorem firstOfPID_find (ps : List listeningProcess) (seen : List Int) (r : listeningProcess)
    (hr : r ∈ firstOfPID ps seen) : ps.find? (fun p => decide (p.PID = r.PID)) = some r := by
  induction ps generalizing seen with
  | nil => simp [firstOfPID] at hr
  | cons p ps ih =>
    by_cases h : p.PID ∈ seen
    · simp only [firstOfPID, h, if_true] at hr
      have hne : r.PID ∉ seen :=
        ((mem_firstOfPID_pid ps seen r.PID).mp (List.mem_map_of_mem _ hr)).2
      have : p.PID ≠ r.PID := fun e => hne (e ▸ h)
      simp only [List.find?_cons, this, decide_False]
      exact ih seen hr
    · simp only [firstOfPID, h, if_false, List.mem_cons] at hr
      rcases hr with rfl | hr
      · simp
      · have hne : r.PID ∉ p.PID :: seen :=
          ((mem_firstOfPID_pid ps _ r.PID).mp (List.mem_map_of_mem _ hr)).2
        have : p.PID ≠ r.PID := fun e => hne (e ▸ List.mem_cons_self _ _)
        simp only [List.find?_cons, this, decide_False]
        exact ih _ hr

theorem firstOfPID_order (ps : List listeningProcess) (seen : List Int) :
    (firstOfPID ps seen).Pairwise (fun a b =>
      (ps.map (fun p => p.PID)).indexOf a.PID < (ps.map (fun p => p.PID)).indexOf b.PID) := by
  induction ps generalizing seen with
  | nil => simp [firstOfPID]
  | cons p ps ih =>
    have shift : ∀ s : List Int, p.PID ∈ s → ∀ a ∈ firstOfPID ps s,
        ((p :: ps).map (fun p => p.PID)).indexOf a.PID
          = (ps.map (fun p => p.PID)).indexOf a.PID + 1 := by
      intro s hs a ha
      have hne : a.PID ∉ s := ((mem_firstOfPID_pid ps s a.PID).mp (List.mem_map_of_mem _ ha)).2
      have : p.PID ≠ a.PID := fun e => hne (e ▸ hs)
      rw [List.map_cons, List.indexOf_cons_ne _ this]
    by_cases h : p.PID ∈ seen
    · simp only [firstOfPID, h, if_true]
      refine (ih seen).imp_of_mem ?_
      intro a b ha hb hab
      rw [shift seen h a ha, shift seen h b hb]
      omega
    · simp only [firstOfPID, h, if_false, List.pairwise_cons]
      constructor
      · intro b hb
        rw [shift _ (List.mem_cons_self _ _) b hb, List.map_cons, List.indexOf_cons_self]
        omega
      · refine (ih _).imp_of_mem ?_
        intro a b ha hb hab
        rw [shift _ (List.mem_cons_self _ _) a ha, shift _ (List.mem_cons_self _ _) b hb]
        omega

/-- C7. `uniqueListeningByPID` keeps the first record of each PID in first-seen
order: the PIDs of the output are pairwise distinct and are exactly the PIDs of
the input, each output record is the earliest input record with its PID, the
output is a sublist of the input, ordered by the first position of the PIDs in
the input; for PIDs 5, 7, 5, 9, 7 it keeps the records at positions 0, 1, 3. -/
theorem unique_first_per_pid (ps : List listeningProcess) :
    ((uniqueListeningByPID ps).map (fun p => p.PID)).Nodup ∧
      (∀ pid, pid ∈ (uniqueListeningByPID ps).map (fun p => p.PID) ↔
        pid ∈ ps.map (fun p => p.PID)) ∧
      (∀ r ∈ uniqueListeningByPID ps, ps.find? (fun p => decide (p.PID = r.PID)) = some r) ∧
      (uniqueListeningByPID ps).Sublist ps ∧
      (uniqueListeningByPID ps).Pairwise (fun a b =>
        (ps.map (fun p => p.PID)).indexOf a.PID < (ps.map (fun p => p.PID)).indexOf b.PID) ∧
      (∀ a b c d e : listeningProcess,
        uniqueListeningByPID [{ a with PID := 5 }, { b with PID := 7 }, { c with PID := 5 },
            { d with PID := 9 }, { e with PID := 7 }]
          = [{ a with PID := 5 }, { b with PID := 7 }, { d with PID := 9 }]) := by
  rw [unique_eq]
  refine ⟨firstOfPID_nodup ps [], ?_, fun r hr => firstOfPID_find ps [] r hr,
    firstOfPID_sublist ps [], firstOfPID_order ps [], ?_⟩
  · intro pid
    rw [mem_firstOfPID_pid]
    simp
  · intro a b c d e
    simp [uniqueListeningByPID, uniqueLoop]

/-! ## `runKillPort` -/

theorem fieldsFrom_ne_nil (s cur : GoString) : ∀ f ∈ fieldsFrom s cur, f ≠ [] := by
  induction s generalizing cur with
  | nil =>
    intro f hf
    by_cases hc : cur = []
    · simp [fieldsFrom, hc] at hf
    · simp only [fieldsFrom, hc, if_false, List.mem_singleton] at hf
      rw [hf]
      exact hc
  | cons c cs ih =>
    intro f hf
    rw [fieldsFrom_cons] at hf
    by_cases hsp : isSpace c = true
    · rw [if_pos hsp] at hf
      by_cases hc : cur = []
      · rw [if_pos hc] at hf
        exact ih [] f hf
      · rw [if_neg hc] at hf
        rcases List.mem_cons.mp hf with rfl | hf
        · exact hc
        · exact ih [] f hf
    · rw [if_neg hsp] at hf
      exact ih _ f hf

theorem portOf_ne_nil (a p : GoString) (ha : a ≠ []) (h : portOf a = some p) : p ≠ [] := by
  simp only [portOf, sliceFrom] at h
  by_cases hc : 0 ≤ LastIndex a ':' ∧ LastIndex a ':' + 1 < (a.length : Int)
  · rw [if_pos hc, if_pos (by omega)] at h
    cases h
    intro hd
    have hlen := congrArg List.length hd
    rw [List.length_drop, List.length_nil] at hlen
    omega
  · rw [if_neg hc] at h
    cases h
    exact ha

theorem parseLine_port_ne_nil (line : GoString) (r : listeningProcess)
    (h : parseLine line = .record r) : r.Port ≠ [] := by
  rcases parseLine_cases line with ⟨hs, _⟩ | ⟨q, hq, _, _, _, _, ha, hp, _⟩
  · rw [hs] at h
    cases h
  · rw [hq] at h
    cases h
    have hmem : r.Address ∈ Fields line := List.getElem?_mem ha
    exact portOf_ne_nil _ _ (fieldsFrom_ne_nil line [] _ hmem) hp

theorem listListeningProcesses_ok (w : World) (all : List listeningProcess)
    (hlook : w.lookPath = none) (hrun : w.run = none)
    (hparse : parseLsofOutput w.stdout = .ok all) :
    listListeningProcesses w = ([.lookPath, .run], .ok all) := by
  simp [listListeningProcesses, hlook, hrun, hparse]

theorem killSelected_trace (w : World) (selected : listeningProcess) :
    ∃ report, (killSelected w selected).1 = [.kill selected.PID, report] ∧
      (report = .stdout (killedMessage selected) ∨ ∃ m, report = .stderr m) := by
  unfold killSelected killListeningProcess
  cases hk : w.kill selected.PID with
  | none => exact ⟨_, rfl, Or.inl rfl⟩
  | some err =>
    by_cases he : err.isESRCH = true
    · simp only [he, if_true]
      exact ⟨_, rfl, Or.inl rfl⟩
    · simp only [he]
      exact ⟨_, rfl, Or.inr ⟨_, rfl⟩⟩

theorem selectAndKill_trace (w : World) (targets : List listeningProcess) :
    ∃ rest, (selectAndKill w targets).1
        = .find targets (targets.map displayLine) :: rest ∧
      ∀ ts items, Event.find ts items ∉ rest := by
  simp only [selectAndKill]
  cases hf : w.find (targets.map displayLine) with
  | error err =>
    by_cases ha : err.isAbort = true
    · simp only [ha, if_true]
      exact ⟨[], rfl, fun _ _ h => by simp at h⟩
    · simp only [ha]
      exact ⟨_, rfl, fun _ _ h => by simp [reportError] at h⟩
  | ok idx =>
    dsimp only
    cases hi : index targets idx with
    | none => exact ⟨[], rfl, fun _ _ h => by simp at h⟩
    | some selected =>
      obtain ⟨report, ht, hrep⟩ := killSelected_trace w selected
      refine ⟨(killSelected w selected).1, rfl, ?_⟩
      intro ts items h
      rw [ht] at h
      rcases hrep with rfl | ⟨m, rfl⟩ <;> simp at h

/-- C9. When the listing succeeds, one argument is given and the records that have
the trimmed argument as Port, deduplicated by PID, are exactly one record,
`runKillPort` never calls `fuzzyfinder.Find`: right after the listing it sends
the signal to the PID of that record, to no other PID, and then only reports. -/
theorem single_match_signalled_directly (w : World) (arg : GoString)
    (all : List listeningProcess) (r : listeningProcess)
    (hlook : w.lookPath = none) (hrun : w.run = none)
    (hparse : parseLsofOutput w.stdout = .ok all)
    (hone : uniqueListeningByPID (filterListeningProcessesByPort all (TrimSpace arg)) = [r]) :
    (∀ ts items, Event.find ts items ∉ (runKillPort w [arg]).1) ∧
      ∃ report, (runKillPort w [arg]).1 = [.lookPath, .run, .kill r.PID, report] ∧
        (report = .stdout (killedMessage r) ∨ ∃ m, report = .stderr m) := by
  have hmem : r ∈ filterListeningProcessesByPort all (TrimSpace arg) := by
    have hsub := firstOfPID_sublist (filterListeningProcessesByPort all (TrimSpace arg)) []
    rw [← unique_eq, hone] at hsub
    exact hsub.subset (List.mem_singleton.mpr rfl)
  rw [filter_eq, List.mem_filter] at hmem
  have hr : r ∈ all := hmem.1
  have hp : r.Port = TrimSpace arg := by simpa using hmem.2
  have hport : TrimSpace arg ≠ [] := by
    obtain ⟨line, hl⟩ := mem_parseLsofOutput _ _ hparse r hr
    rw [← hp]
    exact parseLine_port_ne_nil line r hl
  have hall : all.length ≠ 0 := by
    intro h0
    rw [List.length_eq_zero.mp h0] at hr
    exact absurd hr (List.not_mem_nil _)
  obtain ⟨report, ht, hrep⟩ := killSelected_trace w r
  have hrun : (runKillPort w [arg]).1 = [.lookPath, .run] ++ (killSelected w r).1 := by
    simp [runKillPort, listListeningProcesses_ok w all hlook hrun hparse, hall, hport, hone,
      index]
  rw [hrun, ht]
  refine ⟨?_, report, rfl, hrep⟩
  intro ts items h
  rcases hrep with rfl | ⟨m, rfl⟩ <;> simp at h

/-- Witness for C9: port ` 8080 ` in the sample world, where process 5 alone
listens on 8080. -/
theorem single_match_signalled_directly_witness :
    (∀ ts items, Event.find ts items ∉ (runKillPort sampleWorld [" 8080 ".toList]).1) ∧
      ∃ report, (runKillPort sampleWorld [" 8080 ".toList]).1
          = [.lookPath, .run, .kill 5, report] ∧
        (report = .stdout (killedMessage nodeOn8080) ∨ ∃ m, report = .stderr m) :=
  single_match_signalled_directly sampleWorld " 8080 ".toList twoSocketRecords nodeOn8080
    rfl rfl (by decide) (by decide)

/-- C10. When the listing succeeds with at least one record and no argument is
given, `runKillPort` calls `fuzzyfinder.Find` once, right after the listing, with
the full list of parsed records as it is, not deduplicated by PID. -/
theorem no_port_presents_all (w : World) (all : List listeningProcess)
    (hlook : w.lookPath = none) (hrun : w.run = none)
    (hparse : parseLsofOutput w.stdout = .ok all) (hne : all ≠ []) :
    ∃ rest, (runKillPort w []).1
        = .lookPath :: .run :: .find all (all.map displayLine) :: rest ∧
      ∀ ts items, Event.find ts items ∉ rest := by
  have hall : all.length ≠ 0 := fun h0 => hne (List.length_eq_zero.mp h0)
  obtain ⟨rest, ht, hrest⟩ := selectAndKill_trace w all
  refine ⟨rest, ?_, hrest⟩
  have hrun : (runKillPort w []).1 = [.lookPath, .run] ++ (selectAndKill w all).1 := by
    simp [runKillPort, listListeningProcesses_ok w all hlook hrun hparse, hall]
  rw [hrun, ht]
  rfl

/-- Witness for C10: the sample world, whose listing has two records of process 5
and one of process 7; all three are handed to the selector. -/
theorem no_port_presents_all_witness :
    twoSocketRecords.map (fun p => p.PID) = [5, 5, 7] ∧
      ∃ rest, (runKillPort sampleWorld []).1
          = .lookPath :: .run :: .find twoSocketRecords (twoSocketRecords.map displayLine) :: rest ∧
        ∀ ts items, Event.find ts items ∉ rest :=
  ⟨by decide, no_port_presents_all sampleWorld twoSocketRecords rfl rfl (by decide) (by decide)⟩

/-! ## Auxiliary facts: the paths of `runKillPort` -/

theorem parseLsofOutput_ne_panic (out : GoString) : parseLsofOutput out ≠ .panic := by
  rw [parseLsofOutput_eq]
  split_ifs <;> simp

theorem listListeningProcesses_cases (w : World) :
    (∃ err, listListeningProcesses w = ([.lookPath], .error err)) ∨
    (∃ err, listListeningProcesses w = ([.lookPath, .run], .error err)) ∨
    (∃ all, listListeningProcesses w = ([.lookPath, .run], .ok all) ∧ w.lookPath = none ∧
      w.run = none ∧ parseLsofOutput w.stdout = .ok all) := by
  unfold listListeningProcesses
  cases hl : w.lookPath with
  | some err => exact Or.inl ⟨_, rfl⟩
  | none =>
    cases hr : w.run with
    | some err =>
      right; left
      dsimp only
      split_ifs
      · exact ⟨_, rfl⟩
      · exact ⟨_, rfl⟩
    | none =>
      right
      dsimp only
      cases hp : parseLsofOutput w.stdout with
      | ok all => exact Or.inr ⟨all, rfl, rfl, rfl, rfl⟩
      | error err => exact Or.inl ⟨err, rfl⟩
      | panic => exact absurd hp (parseLsofOutput_ne_panic _)

theorem killSelected_cases (w : World) (r : listeningProcess) :
    ((w.kill r.PID = none ∨ ∃ e, w.kill r.PID = some e ∧ e.isESRCH = true) ∧
      killSelected w r = ([.kill r.PID, .stdout (killedMessage r)], .ok ())) ∨
    (∃ e, w.kill r.PID = some e ∧ e.isESRCH = false ∧
      killSelected w r
        = ([.kill r.PID,
            .stderr ("kill pid ".toList ++ Itoa r.PID ++ ": ".toList ++ e.message ++ "\n".toList)],
          .error (.wrap ("kill pid ".toList ++ Itoa r.PID ++ ": ".toList) e))) := by
  cases hk : w.kill r.PID with
  | none =>
    exact Or.inl ⟨Or.inl rfl, by simp [killSelected, killListeningProcess, hk]⟩
  | some err =>
    cases he : err.isESRCH with
    | true =>
      exact Or.inl ⟨Or.inr ⟨err, rfl, he⟩, by simp [killSelected, killListeningProcess, hk, he]⟩
    | false =>
      exact Or.inr ⟨err, rfl, he, by
        simp [killSelected, killListeningProcess, hk, he, reportError, Error.message]⟩

theorem selectAndKill_cases (w : World) (ts : List listeningProcess) :
    (∃ err, w.find (ts.map displayLine) = .error err ∧ err.isAbort = true ∧
      selectAndKill w ts = ([.find ts (ts.map displayLine)], .ok ())) ∨
    (∃ err, w.find (ts.map displayLine) = .error err ∧ err.isAbort = false ∧
      selectAndKill w ts
        = ([.find ts (ts.map displayLine),
            .stderr ("select port: ".toList ++ err.message ++ "\n".toList)],
          .error (.wrap "select port: ".toList err))) ∨
    (∃ idx, w.find (ts.map displayLine) = .ok idx ∧ index ts idx = none ∧
      selectAndKill w ts = ([.find ts (ts.map displayLine)], .panic)) ∨
    (∃ idx r, w.find (ts.map displayLine) = .ok idx ∧ index ts idx = some r ∧
      selectAndKill w ts
        = (.find ts (ts.map displayLine) :: (killSelected w r).1, (killSelected w r).2)) := by
  cases hf : w.find (ts.map displayLine) with
  | error err =>
    cases ha : err.isAbort with
    | true => exact Or.inl ⟨err, rfl, ha, by simp [selectAndKill, hf, ha]⟩
    | false =>
      exact Or.inr (Or.inl ⟨err, rfl, ha, by
        simp [selectAndKill, hf, ha, reportError, Error.message]⟩)
  | ok idx =>
    cases hi : index ts idx with
    | none => exact Or.inr (Or.inr (Or.inl ⟨idx, rfl, hi, by simp [selectAndKill, hf, hi]⟩))
    | some r =>
      exact Or.inr (Or.inr (Or.inr ⟨idx, r, rfl, hi, by simp [selectAndKill, hf, hi]⟩))

theorem runKillPort_many_args (w : World) (args : List GoString) (h : 1 < args.length) :
    runKillPort w args
      = ([.stderr (usageLine w),
          .stderr ("expected at most 1 argument, got ".toList ++ Itoa (args.length : Int)
            ++ "\n".toList)],
        .error (.text ("expected at most 1 argument, got ".toList ++ Itoa (args.length : Int)))) := by
  simp [runKillPort, h, reportError, Error.message]

theorem runKillPort_list_error (w : World) (args : List GoString) (h : args.length ≤ 1)
    (evs : List Event) (err : Error) (hl : listListeningProcesses w = (evs, .error err)) :
    runKillPort w args = (evs ++ [.stderr (err.message ++ "\n".toList)], .error err) := by
  have h1 : ¬ 1 < args.length := by omega
  simp [runKillPort, h1, hl, reportError]

theorem runKillPort_empty_listing (w : World) (args : List GoString) (h : args.length ≤ 1)
    (hl : listListeningProcesses w = ([.lookPath, .run], .ok [])) :
    runKillPort w args
      = ([.lookPath, .run, .stdout "No listening TCP ports found.\n".toList], .ok ()) := by
  have h1 : ¬ 1 < args.length := by omega
  simp [runKillPort, h1, hl]

theorem runKillPort_no_arg (w : World) (all : List listeningProcess) (hne : all ≠ [])
    (hl : listListeningProcesses w = ([.lookPath, .run], .ok all)) :
    runKillPort w []
      = ([.lookPath, .run] ++ (selectAndKill w all).1, (selectAndKill w all).2) := by
  have hall : all.length ≠ 0 := fun h0 => hne (List.length_eq_zero.mp h0)
  simp [runKillPort, hl, hall]

theorem runKillPort_empty_port (w : World) (all : List listeningProcess) (arg : GoString)
    (hne : all ≠ []) (hl : listListeningProcesses w = ([.lookPath, .run], .ok all))
    (harg : TrimSpace arg = []) :
    runKillPort w [arg]
      = ([.lookPath, .run, .stderr (usageLine w), .stderr "port cannot be empty\n".toList],
        .error (.text "port cannot be empty".toList)) := by
  have hall : all.length ≠ 0 := fun h0 => hne (List.length_eq_zero.mp h0)
  simp [runKillPort, hl, hall, harg, reportError, Error.message]

theorem runKillPort_no_match (w : World) (all : List listeningProcess) (arg : GoString)
    (hne : all ≠ []) (hl : listListeningProcesses w = ([.lookPath, .run], .ok all))
    (harg : TrimSpace arg ≠ []) (hc : candidatesFor all arg = []) :
    runKillPort w [arg]
      = ([.lookPath, .run,
          .stdout ("No listening process found on port ".toList ++ TrimSpace arg
            ++ ".\n".toList)], .ok ()) := by
  have hall : all.length ≠ 0 := fun h0 => hne (List.length_eq_zero.mp h0)
  unfold candidatesFor at hc
  simp [runKillPort, hl, hall, harg, hc]

theorem runKillPort_one_match (w : World) (all : List listeningProcess) (arg : GoString)
    (r : listeningProcess)
    (hne : all ≠ []) (hl : listListeningProcesses w = ([.lookPath, .run], .ok all))
    (harg : TrimSpace arg ≠ []) (hc : candidatesFor all arg = [r]) :
    runKillPort w [arg]
      = ([.lookPath, .run] ++ (killSelected w r).1, (killSelected w r).2) := by
  have hall : all.length ≠ 0 := fun h0 => hne (List.length_eq_zero.mp h0)
  unfold candidatesFor at hc
  simp [runKillPort, hl, hall, harg, hc, index]

theorem runKillPort_many_matches (w : World) (all : List listeningProcess) (arg : GoString)
    (hne : all ≠ []) (hl : listListeningProcesses w = ([.lookPath, .run], .ok all))
    (harg : TrimSpace arg ≠ []) (hc : 2 ≤ (candidatesFor all arg).length) :
    runKillPort w [arg]
      = ([.lookPath, .run] ++ (selectAndKill w (candidatesFor all arg)).1,
        (selectAndKill w (candidatesFor all arg)).2) := by
  have hall : all.length ≠ 0 := fun h0 => hne (List.length_eq_zero.mp h0)
  unfold candidatesFor at hc ⊢
  have h0 : (uniqueListeningByPID (filterListeningProcessesByPort all (TrimSpace arg))).length
      ≠ 0 := by omega
  have h1 : (uniqueListeningByPID (filterListeningProcessesByPort all (TrimSpace arg))).length
      ≠ 1 := by omega
  simp [runKillPort, hl, hall, harg, h0, h1]

theorem mem_candidatesFor (all : List listeningProcess) (arg : GoString) (r : listeningProcess)
    (h : r ∈ candidatesFor all arg) : r ∈ all ∧ r.Port = TrimSpace arg := by
  unfold candidatesFor at h
  rw [unique_eq] at h
  have hm := (firstOfPID_sublist _ []).subset h
  rw [filter_eq, List.mem_filter] at hm
  exact ⟨hm.1, by simpa using hm.2⟩

theorem port_ne_nil_of_candidate (out : GoString) (all : List listeningProcess) (arg : GoString)
    (r : listeningProcess) (hparse : parseLsofOutput out = .ok all)
    (h : r ∈ candidatesFor all arg) : TrimSpace arg ≠ [] := by
  obtain ⟨hr, hp⟩ := mem_candidatesFor all arg r h
  obtain ⟨line, hl⟩ := mem_parseLsofOutput _ _ hparse r hr
  rw [← hp]
  exact parseLine_port_ne_nil line r hl

theorem signals_append (a b : List Event) : signals (a ++ b) = signals a ++ signals b := by
  simp [signals]

theorem selections_append (a b : List Event) :
    selections (a ++ b) = selections a ++ selections b := by
  simp [selections]

/-- The three shapes of an invocation: no selection and no signal at all; a
single match signalled directly; a selection among the full listing or among
two or more matches. -/
theorem runKillPort_shape (w : World) (args : List GoString) :
    (∀ e ∈ (runKillPort w args).1, Event.killed e = none ∧ Event.shown e = none) ∨
    (∃ all arg r, parseLsofOutput w.stdout = .ok all ∧ args = [arg] ∧ TrimSpace arg ≠ [] ∧
      candidatesFor all arg = [r] ∧
      runKillPort w args = ([.lookPath, .run] ++ (killSelected w r).1, (killSelected w r).2)) ∨
    (∃ all ts, parseLsofOutput w.stdout = .ok all ∧ all ≠ [] ∧
      ((args = [] ∧ ts = all) ∨
        (∃ arg, args = [arg] ∧ TrimSpace arg ≠ [] ∧ ts = candidatesFor all arg ∧
          2 ≤ ts.length)) ∧
      runKillPort w args
        = ([.lookPath, .run] ++ (selectAndKill w ts).1, (selectAndKill w ts).2)) := by
  by_cases hlen : 1 < args.length
  · left
    rw [runKillPort_many_args w args hlen]
    intro e he
    simp only [List.mem_cons, List.mem_singleton, List.not_mem_nil, or_false] at he
    rcases he with rfl | rfl <;> exact ⟨rfl, rfl⟩
  · have hle : args.length ≤ 1 := by omega
    rcases listListeningProcesses_cases w with ⟨err, hl⟩ | ⟨err, hl⟩ | ⟨all, hl, _, _, hparse⟩
    · left
      rw [runKillPort_list_error w args hle _ _ hl]
      intro e he
      simp only [List.cons_append, List.nil_append, List.mem_cons, List.mem_singleton,
        List.not_mem_nil, or_false] at he
      rcases he with rfl | rfl <;> exact ⟨rfl, rfl⟩
    · left
      rw [runKillPort_list_error w args hle _ _ hl]
      intro e he
      simp only [List.cons_append, List.nil_append, List.mem_cons, List.mem_singleton,
        List.not_mem_nil, or_false] at he
      rcases he with rfl | rfl | rfl <;> exact ⟨rfl, rfl⟩
    · by_cases hne : all = []
      · subst hne
        left
        rw [runKillPort_empty_listing w args hle hl]
        intro e he
        simp only [List.mem_cons, List.mem_singleton, List.not_mem_nil, or_false] at he
        rcases he with rfl | rfl | rfl <;> exact ⟨rfl, rfl⟩
      · match args, hle with
        | [], _ =>
          right; right
          exact ⟨all, all, hparse, hne, Or.inl ⟨rfl, rfl⟩, runKillPort_no_arg w all hne hl⟩
        | [arg], _ =>
          by_cases harg : TrimSpace arg = []
          · left
            rw [runKillPort_empty_port w all arg hne hl harg]
            intro e he
            simp only [List.mem_cons, List.mem_singleton, List.not_mem_nil, or_false] at he
            rcases he with rfl | rfl | rfl | rfl <;> exact ⟨rfl, rfl⟩
          · cases hc : candidatesFor all arg with
            | nil =>
              left
              rw [runKillPort_no_match w all arg hne hl harg hc]
              intro e he
              simp only [List.mem_cons, List.mem_singleton, List.not_mem_nil, or_false] at he
              rcases he with rfl | rfl | rfl <;> exact ⟨rfl, rfl⟩
            | cons r rest =>
              cases rest with
              | nil =>
                right; left
                exact ⟨all, arg, r, hparse, rfl, harg, hc,
                  runKillPort_one_match w all arg r hne hl harg hc⟩
              | cons r2 rest2 =>
                right; right
                have h2 : 2 ≤ (candidatesFor all arg).length := by
                  rw [hc]
                  simp
                refine ⟨all, candidatesFor all arg, hparse, hne,
                  Or.inr ⟨arg, rfl, harg, rfl, h2⟩, ?_⟩
                exact runKillPort_many_matches w all arg hne hl harg h2
        | _ :: _ :: _, h => simp at h

/-- Whenever the selector is called, it is called right after the listing with
the candidates and their display lines, and the rest of the invocation is what
follows from its answer. -/
theorem find_mem_runKillPort (w : World) (args : List GoString) (ts : List listeningProcess)
    (items : List GoString) (h : Event.find ts items ∈ (runKillPort w args).1) :
    items = ts.map displayLine ∧
    (∃ all, parseLsofOutput w.stdout = .ok all ∧ all ≠ [] ∧
      ((args = [] ∧ ts = all) ∨
        (∃ arg, args = [arg] ∧ TrimSpace arg ≠ [] ∧ ts = candidatesFor all arg ∧
          2 ≤ ts.length))) ∧
    runKillPort w args = ([.lookPath, .run] ++ (selectAndKill w ts).1, (selectAndKill w ts).2) := by
  rcases runKillPort_shape w args with h0 | ⟨all, arg, r, _, _, _, _, hrun⟩ |
    ⟨all, T, hparse, hne, hT, hrun⟩
  · exact absurd (h0 _ h).2 (by simp [Event.shown])
  · rw [hrun] at h
    obtain ⟨report, ht, hrep⟩ := killSelected_trace w r
    rw [ht] at h
    rcases hrep with rfl | ⟨m, rfl⟩ <;> simp at h
  · obtain ⟨rest, ht, hrest⟩ := selectAndKill_trace w T
    have h2 := h
    rw [hrun, ht] at h2
    simp only [List.cons_append, List.nil_append, List.mem_cons] at h2
    rcases h2 with h2 | h2 | h2 | h2
    · cases h2
    · cases h2
    · cases h2
      exact ⟨rfl, ⟨all, hparse, hne, hT⟩, hrun⟩
    · exact absurd h2 (hrest _ _)

theorem kill_result_none_iff (w : World) (pid : Int) :
    (killListeningProcess w pid).2 = none ↔
      (w.kill pid = none ∨ ∃ e, w.kill pid = some e ∧ e.isESRCH = true) := by
  unfold killListeningProcess
  cases hk : w.kill pid with
  | none => simp
  | some err =>
    cases he : err.isESRCH <;> simp [he]

theorem signals_killSelected (w : World) (r : listeningProcess) :
    signals (killSelected w r).1 = [r.PID] := by
  obtain ⟨report, ht, hrep⟩ := killSelected_trace w r
  rw [ht]
  rcases hrep with rfl | ⟨m, rfl⟩ <;> rfl

theorem signals_selectAndKill (w : World) (ts : List listeningProcess) :
    (signals (selectAndKill w ts).1 = [] ∧
      ∀ i r, w.find (ts.map displayLine) = .ok i → index ts i ≠ some r) ∨
    (∃ i r, w.find (ts.map displayLine) = .ok i ∧ index ts i = some r ∧
      signals (selectAndKill w ts).1 = [r.PID] ∧
      selectAndKill w ts
        = (.find ts (ts.map displayLine) :: (killSelected w r).1, (killSelected w r).2)) := by
  rcases selectAndKill_cases w ts with ⟨err, hf, _, hs⟩ | ⟨err, hf, _, hs⟩ | ⟨idx, hf, hi, hs⟩ |
    ⟨idx, r, hf, hi, hs⟩
  · left
    refine ⟨by rw [hs]; rfl, ?_⟩
    intro i r h
    rw [hf] at h
    cases h
  · left
    refine ⟨by rw [hs]; rfl, ?_⟩
    intro i r h
    rw [hf] at h
    cases h
  · left
    refine ⟨by rw [hs]; rfl, ?_⟩
    intro i r h
    rw [hf] at h
    cases h
    rw [hi]
    simp
  · right
    refine ⟨idx, r, hf, hi, ?_, hs⟩
    rw [hs]
    have : signals (Event.find ts (ts.map displayLine) :: (killSelected w r).1)
        = signals (killSelected w r).1 := rfl
    rw [this, signals_killSelected]

theorem killSelected_success (w : World) (r : listeningProcess)
    (h : (killListeningProcess w r.PID).2 = none) :
    killSelected w r = ([.kill r.PID, .stdout (killedMessage r)], .ok ()) := by
  rcases killSelected_cases w r with ⟨_, hs⟩ | ⟨e, hk, he, _⟩
  · exact hs
  · rcases (kill_result_none_iff w r.PID).mp h with hn | ⟨e2, hk2, he2⟩
    · rw [hk] at hn
      cases hn
    · rw [hk] at hk2
      cases hk2
      rw [he] at he2
      cases he2

/-! ## The resolution in `runKillPort` -/

/-- C11. When the listing succeeds, one argument is given and the records that have
the trimmed argument as Port, deduplicated by PID, are two or more,
`runKillPort` calls `fuzzyfinder.Find` once, right after the listing, with exactly
that list: every presented record has the requested port and no two of them
share a PID. -/
theorem many_matches_presented_deduped (w : World) (arg : GoString)
    (all : List listeningProcess)
    (hlook : w.lookPath = none) (hrun : w.run = none)
    (hparse : parseLsofOutput w.stdout = .ok all)
    (hmany :
      2 ≤ (uniqueListeningByPID (filterListeningProcessesByPort all (TrimSpace arg))).length) :
    (∃ rest, (runKillPort w [arg]).1
        = .lookPath :: .run ::
            .find (uniqueListeningByPID (filterListeningProcessesByPort all (TrimSpace arg)))
              ((uniqueListeningByPID
                (filterListeningProcessesByPort all (TrimSpace arg))).map displayLine) :: rest ∧
      ∀ ts items, Event.find ts items ∉ rest) ∧
    (∀ r ∈ uniqueListeningByPID (filterListeningProcessesByPort all (TrimSpace arg)),
      r.Port = TrimSpace arg) ∧
    ((uniqueListeningByPID (filterListeningProcessesByPort all (TrimSpace arg))).map
      (fun p => p.PID)).Nodup := by
  change 2 ≤ (candidatesFor all arg).length at hmany
  change (∃ rest, (runKillPort w [arg]).1
        = .lookPath :: .run ::
            .find (candidatesFor all arg) ((candidatesFor all arg).map displayLine) :: rest ∧
      ∀ ts items, Event.find ts items ∉ rest) ∧
    (∀ r ∈ candidatesFor all arg, r.Port = TrimSpace arg) ∧
    ((candidatesFor all arg).map (fun p => p.PID)).Nodup
  obtain ⟨r, hr⟩ : ∃ r, r ∈ candidatesFor all arg := by
    cases hc : candidatesFor all arg with
    | nil => rw [hc] at hmany; simp at hmany
    | cons r _ => exact ⟨r, List.mem_cons_self _ _⟩
  have hne : all ≠ [] := List.ne_nil_of_mem (mem_candidatesFor all arg r hr).1
  have harg := port_ne_nil_of_candidate _ all arg r hparse hr
  have hl := listListeningProcesses_ok w all hlook hrun hparse
  obtain ⟨rest, ht, hrest⟩ := selectAndKill_trace w (candidatesFor all arg)
  refine ⟨⟨rest, ?_, hrest⟩, fun q hq => (mem_candidatesFor all arg q hq).2, ?_⟩
  · rw [runKillPort_many_matches w all arg hne hl harg hmany, ht]
    rfl
  · unfold candidatesFor
    rw [unique_eq]
    exact firstOfPID_nodup _ []

/-- Witness for C11: port `3000` in the world where process 5, on two sockets, and
process 7 listen on it; the two first records of the processes are presented. -/
theorem many_matches_presented_deduped_witness :
    uniqueListeningByPID (filterListeningProcessesByPort sharedPortRecords "3000".toList)
        = [nodeOn3000, pyOn3000] ∧
      ∃ rest, (runKillPort sharedPortWorld ["3000".toList]).1
          = .lookPath :: .run ::
              .find (uniqueListeningByPID
                  (filterListeningProcessesByPort sharedPortRecords (TrimSpace "3000".toList)))
                ((uniqueListeningByPID
                  (filterListeningProcessesByPort sharedPortRecords
                    (TrimSpace "3000".toList))).map displayLine) :: rest ∧
        ∀ ts items, Event.find ts items ∉ rest :=
  ⟨by decide,
    (many_matches_presented_deduped sharedPortWorld "3000".toList sharedPortRecords rfl rfl
      (by decide) (by decide)).1⟩

/-- C12 (as amended). Whenever `runKillPort` calls the selector, the listing has
succeeded and the list presented is, without an argument, the full list of
parsed records, as it is; with an argument, the records that have the trimmed
argument as Port deduplicated by PID: no two of them share a PID and each is the
first record of its PID among the records on that port. -/
theorem selection_candidates (w : World) (args : List GoString) (ts : List listeningProcess)
    (items : List GoString) (h : Event.find ts items ∈ (runKillPort w args).1) :
    ∃ all, parseLsofOutput w.stdout = .ok all ∧
      ((args = [] ∧ ts = all) ∨
        (∃ arg, args = [arg] ∧
          ts = uniqueListeningByPID (filterListeningProcessesByPort all (TrimSpace arg)) ∧
          (ts.map (fun p => p.PID)).Nodup ∧
          ∀ r ∈ ts, (filterListeningProcessesByPort all (TrimSpace arg)).find?
            (fun p => decide (p.PID = r.PID)) = some r)) := by
  obtain ⟨_, ⟨all, hparse, _, hT⟩, _⟩ := find_mem_runKillPort w args ts items h
  refine ⟨all, hparse, ?_⟩
  rcases hT with hT | ⟨arg, ha, _, hts, _⟩
  · exact Or.inl hT
  · right
    refine ⟨arg, ha, hts, ?_, ?_⟩
    · rw [hts]
      unfold candidatesFor
      rw [unique_eq]
      exact firstOfPID_nodup _ []
    · intro r hr
      rw [hts] at hr
      unfold candidatesFor at hr
      rw [unique_eq] at hr
      exact firstOfPID_find _ [] r hr

/-- Witness for C12: the selection for port `3000` in the world where processes 5
and 7 listen on it. -/
theorem selection_candidates_witness :
    ∃ all, parseLsofOutput sharedPortWorld.stdout = .ok all ∧
      ((["3000".toList] = ([] : List GoString) ∧ [nodeOn3000, pyOn3000] = all) ∨
        (∃ arg, ["3000".toList] = [arg] ∧
          [nodeOn3000, pyOn3000]
            = uniqueListeningByPID (filterListeningProcessesByPort all (TrimSpace arg)) ∧
          (([nodeOn3000, pyOn3000] : List listeningProcess).map (fun p => p.PID)).Nodup ∧
          ∀ r ∈ [nodeOn3000, pyOn3000], (filterListeningProcessesByPort all (TrimSpace arg)).find?
            (fun p => decide (p.PID = r.PID)) = some r)) :=
  selection_candidates sharedPortWorld ["3000".toList] [nodeOn3000, pyOn3000]
    ([nodeOn3000, pyOn3000].map displayLine) (by decide)

/-- C12 fails as stated: without an argument, in the listing with two sockets of
process 5 and one of process 7, the selector is given all three records, two of
them with PID 5. -/
theorem no_port_selection_not_deduped :
    selections (runKillPort sampleWorld []).1 = [twoSocketRecords] ∧
      twoSocketRecords.map (fun p => p.PID) = [5, 5, 7] := by
  decide

/-- C13. When `runKillPort` makes the listing and the listing succeeds with zero
records, whatever the arguments are, the command prints "No listening TCP ports
found." and returns nil; the selector and `syscall.Kill` are never called. -/
theorem empty_listing_short_circuit (w : World) (args : List GoString)
    (hlook : w.lookPath = none) (hrun : w.run = none)
    (hparse : parseLsofOutput w.stdout = .ok [])
    (hlisted : Event.run ∈ (runKillPort w args).1) :
    runKillPort w args
        = ([.lookPath, .run, .stdout "No listening TCP ports found.\n".toList], .ok ()) ∧
      selections (runKillPort w args).1 = [] ∧ signals (runKillPort w args).1 = [] := by
  have hle : args.length ≤ 1 := by
    by_contra hc
    rw [runKillPort_many_args w args (by omega)] at hlisted
    simp at hlisted
  have hl := listListeningProcesses_ok w [] hlook hrun hparse
  have he := runKillPort_empty_listing w args hle hl
  rw [he]
  exact ⟨rfl, rfl, rfl⟩

/-- Witness for C13: a port argument in the world where `lsof` prints its header
only. -/
theorem empty_listing_short_circuit_witness :
    runKillPort emptyWorld ["8080".toList]
        = ([.lookPath, .run, .stdout "No listening TCP ports found.\n".toList], .ok ()) ∧
      selections (runKillPort emptyWorld ["8080".toList]).1 = [] ∧
      signals (runKillPort emptyWorld ["8080".toList]).1 = [] :=
  empty_listing_short_circuit emptyWorld ["8080".toList] rfl rfl (by decide) (by decide)

/-- C14. When the listing succeeds with at least one record, one argument is given
whose trimmed value is not empty, and no record has that value as Port, the
command prints "No listening process found on port ..." and returns nil; the
selector and `syscall.Kill` are never called. -/
theorem no_match_for_port (w : World) (arg : GoString) (all : List listeningProcess)
    (hlook : w.lookPath = none) (hrun : w.run = none)
    (hparse : parseLsofOutput w.stdout = .ok all) (hne : all ≠ [])
    (hport : TrimSpace arg ≠ []) (hnone : ∀ r ∈ all, r.Port ≠ TrimSpace arg) :
    runKillPort w [arg]
        = ([.lookPath, .run,
            .stdout ("No listening process found on port ".toList ++ TrimSpace arg
              ++ ".\n".toList)], .ok ()) ∧
      selections (runKillPort w [arg]).1 = [] ∧ signals (runKillPort w [arg]).1 = [] := by
  have hc : candidatesFor all arg = [] := by
    have hf : filterListeningProcessesByPort all (TrimSpace arg) = [] := by
      rw [filter_eq, List.filter_eq_nil_iff]
      intro r hr
      simpa using hnone r hr
    unfold candidatesFor
    rw [hf]
    rfl
  have hl := listListeningProcesses_ok w all hlook hrun hparse
  rw [runKillPort_no_match w all arg hne hl hport hc]
  exact ⟨rfl, rfl, rfl⟩

/-- Witness for C14: port `4000` in the sample world, where nothing listens on
4000. -/
theorem no_match_for_port_witness :
    runKillPort sampleWorld ["4000".toList]
        = ([.lookPath, .run,
            .stdout ("No listening process found on port ".toList ++ TrimSpace "4000".toList
              ++ ".\n".toList)], .ok ()) ∧
      selections (runKillPort sampleWorld ["4000".toList]).1 = [] ∧
      signals (runKillPort sampleWorld ["4000".toList]).1 = [] :=
  no_match_for_port sampleWorld "4000".toList twoSocketRecords rfl rfl (by decide) (by decide)
    (by decide) (by decide)

/-- C15. Whenever `runKillPort` calls the selector, there is one display line per
candidate, in the order of the candidates, and the line of candidate `i` is its
Command, a space, its PID in decimal between parentheses, a space, its
Address. -/
theorem display_lines (w : World) (args : List GoString) (ts : List listeningProcess)
    (items : List GoString) (h : Event.find ts items ∈ (runKillPort w args).1) :
    items.length = ts.length ∧
      ∀ (i : Nat) (p : listeningProcess), ts[i]? = some p →
        items[i]? = some (p.Command ++ " (".toList ++ Itoa p.PID ++ ") ".toList ++ p.Address) := by
  obtain ⟨hi, _, _⟩ := find_mem_runKillPort w args ts items h
  subst hi
  refine ⟨List.length_map _ _, ?_⟩
  intro i p hp
  rw [List.getElem?_map, hp]
  rfl

/-- Witness for C15: the selection without argument in the sample world; the line
of the last candidate is `py (7) *:9000`. -/
theorem display_lines_witness :
    (twoSocketRecords.map displayLine).length = twoSocketRecords.length ∧
      (twoSocketRecords.map displayLine)[2]? = some "py (7) *:9000".toList :=
  ⟨(display_lines sampleWorld [] twoSocketRecords (twoSocketRecords.map displayLine)
      (by decide)).1,
    ((display_lines sampleWorld [] twoSocketRecords (twoSocketRecords.map displayLine)
      (by decide)).2 2 _ rfl).trans (by decide)⟩

/-- C16. When the selector is called and ends with an error that is
`fuzzyfinder.ErrAbort`, `runKillPort` returns nil, prints nothing more and calls
`syscall.Kill` for no PID. -/
theorem cancelled_selection (w : World) (args : List GoString) (ts : List listeningProcess)
    (items : List GoString) (err : Error)
    (h : Event.find ts items ∈ (runKillPort w args).1)
    (hf : w.find items = .error err) (ha : err.isAbort = true) :
    runKillPort w args = ([.lookPath, .run, .find ts items], .ok ()) ∧
      signals (runKillPort w args).1 = [] := by
  obtain ⟨hi, _, hrun⟩ := find_mem_runKillPort w args ts items h
  subst hi
  have hs : selectAndKill w ts = ([.find ts (ts.map displayLine)], .ok ()) := by
    simp [selectAndKill, hf, ha]
  rw [hrun, hs]
  exact ⟨rfl, rfl⟩

/-- Witness for C16: the selection without argument in the world whose user
cancels. -/
theorem cancelled_selection_witness :
    runKillPort abortWorld []
        = ([.lookPath, .run, .find twoSocketRecords (twoSocketRecords.map displayLine)],
          .ok ()) ∧
      signals (runKillPort abortWorld []).1 = [] :=
  cancelled_selection abortWorld [] twoSocketRecords (twoSocketRecords.map displayLine)
    .errAbort (by decide) rfl rfl

/-- C17. When the selector is called and ends with an error that is not
`fuzzyfinder.ErrAbort`, `runKillPort` returns the error "select port: ..." that
wraps the selector's error, which `errors.Unwrap` gives back, and calls
`syscall.Kill` for no PID. -/
theorem failed_selection (w : World) (args : List GoString) (ts : List listeningProcess)
    (items : List GoString) (err : Error)
    (h : Event.find ts items ∈ (runKillPort w args).1)
    (hf : w.find items = .error err) (ha : err.isAbort = false) :
    (∃ e, (runKillPort w args).2 = .error e ∧ e.unwrap = some err ∧
      e.message = "select port: ".toList ++ err.message) ∧
      signals (runKillPort w args).1 = [] := by
  obtain ⟨hi, _, hrun⟩ := find_mem_runKillPort w args ts items h
  subst hi
  have hs : selectAndKill w ts
      = ([.find ts (ts.map displayLine),
          .stderr ("select port: ".toList ++ err.message ++ "\n".toList)],
        .error (.wrap "select port: ".toList err)) := by
    simp [selectAndKill, hf, ha, reportError, Error.message]
  rw [hrun, hs]
  exact ⟨⟨_, rfl, rfl, rfl⟩, rfl⟩

/-- Witness for C17: the selection without argument in the world whose selector
fails. -/
theorem failed_selection_witness :
    (∃ e, (runKillPort failWorld []).2 = .error e ∧
      e.unwrap = some (.other "no terminal".toList) ∧
      e.message = "select port: ".toList ++ (Error.other "no terminal".toList).message) ∧
      signals (runKillPort failWorld []).1 = [] :=
  failed_selection failWorld [] twoSocketRecords (twoSocketRecords.map displayLine)
    (.other "no terminal".toList) (by decide) rfl rfl

/-- C18. `killListeningProcess` returns nil if and only if `syscall.Kill` succeeds
or fails with an error that is `ESRCH`; any other error it returns as it is, and
`runKillPort`, when it has sent the signal to `pid`, then returns the error
"kill pid <pid>: ..." that wraps it. -/
theorem kill_idempotent_on_absence (w : World) (pid : Int) :
    ((killListeningProcess w pid).2 = none ↔
      (w.kill pid = none ∨ ∃ e, w.kill pid = some e ∧ e.isESRCH = true)) ∧
    (∀ e, w.kill pid = some e → e.isESRCH = false → (killListeningProcess w pid).2 = some e) ∧
    (∀ args e, Event.kill pid ∈ (runKillPort w args).1 → w.kill pid = some e →
      e.isESRCH = false →
      (runKillPort w args).2
          = .error (.wrap ("kill pid ".toList ++ Itoa pid ++ ": ".toList) e) ∧
        (Error.wrap ("kill pid ".toList ++ Itoa pid ++ ": ".toList) e).unwrap = some e) := by
  refine ⟨kill_result_none_iff w pid, ?_, ?_⟩
  · intro e hk he
    simp [killListeningProcess, hk, he]
  · intro args e hmem hk he
    refine ⟨?_, rfl⟩
    have key : ∀ r : listeningProcess, r.PID = pid →
        (killSelected w r).2
          = .error (.wrap ("kill pid ".toList ++ Itoa pid ++ ": ".toList) e) := by
      intro r hr
      rcases killSelected_cases w r with ⟨hok, _⟩ | ⟨e2, hk2, _, hs⟩
      · rw [hr, hk] at hok
        rcases hok with hn | ⟨e3, h3, he3⟩
        · cases hn
        · cases h3
          rw [he] at he3
          cases he3
      · rw [hr, hk] at hk2
        cases hk2
        rw [hs, hr]
    rcases runKillPort_shape w args with h0 | ⟨all, arg, r, _, _, _, _, hrun⟩ |
      ⟨all, T, _, _, _, hrun⟩
    · exact absurd (h0 _ hmem).1 (by simp [Event.killed])
    · have hsig : pid ∈ signals (runKillPort w args).1 :=
        List.mem_filterMap.mpr ⟨_, hmem, rfl⟩
      rw [hrun, signals_append, signals_killSelected] at hsig
      have hr : r.PID = pid := by
        have hp : pid = r.PID := by simpa [signals, Event.killed] using hsig
        exact hp.symm
      rw [hrun]
      exact key r hr
    · have hsig : pid ∈ signals (runKillPort w args).1 :=
        List.mem_filterMap.mpr ⟨_, hmem, rfl⟩
      rw [hrun, signals_append] at hsig
      rcases signals_selectAndKill w T with ⟨hnil, _⟩ | ⟨i, r, _, _, hone, hs⟩
      · rw [hnil] at hsig
        simp [signals, Event.killed] at hsig
      · rw [hone] at hsig
        have hr : r.PID = pid := by
          have hp : pid = r.PID := by simpa [signals, Event.killed] using hsig
          exact hp.symm
        rw [hrun, hs]
        exact key r hr

/-- Witness for C18: port `8080` in the world where every signal is refused. -/
theorem kill_idempotent_on_absence_witness :
    (runKillPort deniedWorld ["8080".toList]).2
        = .error (.wrap ("kill pid ".toList ++ Itoa 5 ++ ": ".toList)
            (.errno 1 "operation not permitted".toList)) ∧
      (Error.wrap ("kill pid ".toList ++ Itoa 5 ++ ": ".toList)
        (.errno 1 "operation not permitted".toList)).unwrap
          = some (.errno 1 "operation not permitted".toList) :=
  (kill_idempotent_on_absence deniedWorld 5).2.2 ["8080".toList]
    (.errno 1 "operation not permitted".toList) (by decide) rfl rfl

/-- C19. Whenever a candidate is resolved, as the single match of the port argument
or as the item of index `i` the selector returns with `0 ≤ i < N`, exactly one
signal is sent in the invocation and it goes to the PID of that candidate; when
the signalling succeeds `runKillPort` returns nil after printing "Killed
<Command> (pid <PID>) listening on <Address>" for that same record. No
invocation sends more than one signal. -/
theorem resolved_candidate_signalled (w : World) (args : List GoString) :
    (∀ arg all r, args = [arg] → w.lookPath = none → w.run = none →
      parseLsofOutput w.stdout = .ok all →
      uniqueListeningByPID (filterListeningProcessesByPort all (TrimSpace arg)) = [r] →
      signals (runKillPort w args).1 = [r.PID] ∧
        ((killListeningProcess w r.PID).2 = none →
          (runKillPort w args).2 = .ok () ∧
          (runKillPort w args).1.getLast? = some (.stdout (killedMessage r)))) ∧
    (∀ ts items i, Event.find ts items ∈ (runKillPort w args).1 → w.find items = .ok i →
      0 ≤ i → i < (ts.length : Int) →
      ∃ r, ts[i.toNat]? = some r ∧ signals (runKillPort w args).1 = [r.PID] ∧
        ((killListeningProcess w r.PID).2 = none →
          (runKillPort w args).2 = .ok () ∧
          (runKillPort w args).1.getLast? = some (.stdout (killedMessage r)))) ∧
    (signals (runKillPort w args).1).length ≤ 1 ∧
    ∀ p, killedMessage p
      = "Killed ".toList ++ p.Command ++ " (pid ".toList ++ Itoa p.PID
          ++ ") listening on ".toList ++ p.Address ++ "\n".toList := by
  refine ⟨?_, ?_, ?_, fun _ => rfl⟩
  · intro arg all r hargs hlook hrun hparse hone
    subst hargs
    have hc : candidatesFor all arg = [r] := hone
    have hr : r ∈ candidatesFor all arg := by
      rw [hc]
      exact List.mem_singleton.mpr rfl
    have hne : all ≠ [] := List.ne_nil_of_mem (mem_candidatesFor all arg r hr).1
    have harg := port_ne_nil_of_candidate _ all arg r hparse hr
    have hl := listListeningProcesses_ok w all hlook hrun hparse
    rw [runKillPort_one_match w all arg r hne hl harg hc]
    refine ⟨?_, ?_⟩
    · rw [signals_append, signals_killSelected]
      rfl
    · intro hs
      rw [killSelected_success w r hs]
      exact ⟨rfl, rfl⟩
  · intro ts items i hmem hf h0 hlt
    obtain ⟨hi, _, hrun⟩ := find_mem_runKillPort w args ts items hmem
    subst hi
    have hn : i.toNat < ts.length := by omega
    have hidx : index ts i = some (ts[i.toNat]) := by
      unfold index
      rw [if_pos h0]
      exact List.getElem?_eq_getElem hn
    have hs : selectAndKill w ts
        = (.find ts (ts.map displayLine) :: (killSelected w (ts[i.toNat])).1,
          (killSelected w (ts[i.toNat])).2) := by
      simp [selectAndKill, hf, hidx]
    refine ⟨ts[i.toNat], List.getElem?_eq_getElem hn, ?_, ?_⟩
    · rw [hrun, hs, signals_append]
      have : signals (Event.find ts (ts.map displayLine) :: (killSelected w (ts[i.toNat])).1)
          = signals (killSelected w (ts[i.toNat])).1 := rfl
      rw [this, signals_killSelected]
      rfl
    · intro hk
      rw [hrun, hs, killSelected_success w _ hk]
      exact ⟨rfl, rfl⟩
  · rcases runKillPort_shape w args with h0 | ⟨all, arg, r, _, _, _, _, hrun⟩ |
      ⟨all, T, _, _, _, hrun⟩
    · have : signals (runKillPort w args).1 = [] := by
        unfold signals
        rw [List.filterMap_eq_nil_iff]
        exact fun e he => (h0 e he).1
      rw [this]
      simp
    · rw [hrun, signals_append, signals_killSelected]
      simp [signals, Event.killed]
    · rw [hrun, signals_append]
      rcases signals_selectAndKill w T with ⟨hnil, _⟩ | ⟨i, r, _, _, hone, _⟩
      · rw [hnil]
        simp [signals, Event.killed]
      · rw [hone]
        simp [signals, Event.killed]

/-- Witness for C19: without argument in the sample world the user picks the item
of index 2, the record of process 7, and the one signal goes to PID 7. -/
theorem resolved_candidate_signalled_witness :
    signals (runKillPort sampleWorld []).1 = [7] ∧
      ∃ r, twoSocketRecords[(2 : Int).toNat]? = some r ∧
        signals (runKillPort sampleWorld []).1 = [r.PID] ∧
        ((killListeningProcess sampleWorld r.PID).2 = none →
          (runKillPort sampleWorld []).2 = .ok () ∧
          (runKillPort sampleWorld []).1.getLast? = some (.stdout (killedMessage r))) :=
  ⟨by decide,
    (resolved_candidate_signalled sampleWorld []).2.1 twoSocketRecords
      (twoSocketRecords.map displayLine) 2 (by decide) rfl (by decide) (by decide)⟩

/-- C20. With more than one positional argument `runKillPort` prints the usage line
and the error to standard error and returns that error, before anything else:
`exec.LookPath`, `lsof`, the selector and `syscall.Kill` are never called. -/
theorem too_many_arguments (w : World) (args : List GoString) (h : 1 < args.length) :
    runKillPort w args
        = ([.stderr (usageLine w),
            .stderr ("expected at most 1 argument, got ".toList ++ Itoa (args.length : Int)
              ++ "\n".toList)],
          .error (.text ("expected at most 1 argument, got ".toList
            ++ Itoa (args.length : Int)))) ∧
      Event.lookPath ∉ (runKillPort w args).1 ∧ Event.run ∉ (runKillPort w args).1 ∧
      selections (runKillPort w args).1 = [] ∧ signals (runKillPort w args).1 = [] := by
  rw [runKillPort_many_args w args h]
  refine ⟨rfl, ?_, ?_, rfl, rfl⟩ <;> simp

/-- Witness for C20: two arguments in the sample world. -/
theorem too_many_arguments_witness :
    (runKillPort sampleWorld ["8080".toList, "9000".toList]).2
        = .error (.text "expected at most 1 argument, got 2".toList) ∧
      Event.run ∉ (runKillPort sampleWorld ["8080".toList, "9000".toList]).1 :=
  ⟨(congrArg Prod.snd
      (too_many_arguments sampleWorld ["8080".toList, "9000".toList] (by decide)).1).trans
      (by decide),
    (too_many_arguments sampleWorld ["8080".toList, "9000".toList] (by decide)).2.2.1⟩

/-! ## Invariants of the parsed records -/

theorem fieldsFrom_no_white (s cur : GoString) (hcur : ∀ c ∈ cur, isSpace c = false) :
    ∀ f ∈ fieldsFrom s cur, ∀ c ∈ f, isSpace c = false := by
  induction s generalizing cur with
  | nil =>
    intro f hf
    by_cases hc : cur = []
    · simp [fieldsFrom, hc] at hf
    · simp only [fieldsFrom, hc, if_false, List.mem_singleton] at hf
      rw [hf]
      exact hcur
  | cons x xs ih =>
    intro f hf
    rw [fieldsFrom_cons] at hf
    by_cases hsp : isSpace x = true
    · rw [if_pos hsp] at hf
      by_cases hc : cur = []
      · rw [if_pos hc] at hf
        exact ih [] (by simp) f hf
      · rw [if_neg hc] at hf
        rcases List.mem_cons.mp hf with rfl | hf
        · exact hcur
        · exact ih [] (by simp) f hf
    · rw [if_neg hsp] at hf
      refine ih (cur ++ [x]) ?_ f hf
      intro c hc
      rcases List.mem_append.mp hc with hc | hc
      · exact hcur c hc
      · rw [List.mem_singleton.mp hc]
        simpa using hsp

theorem LastIndex_getElem (s : GoString) (c : Char) (h : 0 ≤ LastIndex s c) :
    s[(LastIndex s c).toNat]? = some c := by
  induction s with
  | nil => simp [LastIndex] at h
  | cons x xs ih =>
    rw [LastIndex_cons] at h ⊢
    by_cases h1 : 0 ≤ LastIndex xs c
    · rw [if_pos h1]
      have : (LastIndex xs c + 1).toNat = (LastIndex xs c).toNat + 1 := by omega
      rw [this, List.getElem?_cons_succ]
      exact ih h1
    · rw [if_neg h1] at h ⊢
      by_cases h2 : x = c
      · rw [if_pos h2]
        simp [h2]
      · rw [if_neg h2] at h
        omega

theorem LastIndex_not_mem_drop (s : GoString) (c : Char) :
    c ∉ s.drop ((LastIndex s c + 1).toNat) := by
  induction s with
  | nil => simp
  | cons x xs ih =>
    rw [LastIndex_cons]
    by_cases h1 : 0 ≤ LastIndex xs c
    · rw [if_pos h1]
      have : (LastIndex xs c + 1 + 1).toNat = (LastIndex xs c + 1).toNat + 1 := by omega
      rw [this, List.drop_succ_cons]
      exact ih
    · rw [if_neg h1]
      have hx : c ∉ xs := (LastIndex_neg_iff xs c).mp (by omega)
      by_cases h2 : x = c
      · rw [if_pos h2]
        simpa using hx
      · rw [if_neg h2]
        simp only [Int.reduceNeg, neg_add_cancel, Int.toNat_zero, List.drop_zero, List.mem_cons,
          not_or]
        exact ⟨fun e => h2 e.symm, hx⟩

/-- What `portOf` gives: a suffix of the address, without `:` unless the address
ends in `:`. -/
theorem portOf_spec (a p : GoString) (h : portOf a = some p) :
    (∃ pre, a = pre ++ p) ∧ (':' ∈ p → a.getLast? = some ':') := by
  have hlt := LastIndex_lt a ':'
  simp only [portOf, sliceFrom] at h
  by_cases hc : 0 ≤ LastIndex a ':' ∧ LastIndex a ':' + 1 < (a.length : Int)
  · rw [if_pos hc, if_pos (by omega)] at h
    cases h
    refine ⟨⟨a.take (LastIndex a ':' + 1).toNat, (List.take_append_drop _ a).symm⟩, ?_⟩
    intro hm
    exact absurd hm (LastIndex_not_mem_drop a ':')
  · rw [if_neg hc] at h
    cases h
    refine ⟨⟨[], rfl⟩, ?_⟩
    intro hm
    have h0 : 0 ≤ LastIndex a ':' := by
      by_contra hneg
      exact (LastIndex_neg_iff a ':').mp (by omega) hm
    have hlast : (LastIndex a ':').toNat = a.length - 1 := by omega
    have hget := LastIndex_getElem a ':' h0
    rw [hlast] at hget
    rw [List.getLast?_eq_getElem?]
    exact hget

/-- The invariants of a record made from a line. -/
theorem parseLine_record_spec (line : GoString) (r : listeningProcess)
    (h : parseLine line = .record r) :
    r.Port ≠ [] ∧ (∃ pre, r.Address = pre ++ r.Port) ∧ (∀ c ∈ r.Port, isSpace c = false) ∧
      (':' ∈ r.Port → r.Address.getLast? = some ':') := by
  rcases parseLine_cases line with ⟨hs, _⟩ | ⟨q, hq, _, _, _, _, ha, hp, _⟩
  · rw [hs] at h
    cases h
  · rw [hq] at h
    cases h
    have hmem : r.Address ∈ Fields line := List.getElem?_mem ha
    obtain ⟨⟨pre, hpre⟩, hcolon⟩ := portOf_spec _ _ hp
    refine ⟨parseLine_port_ne_nil line r hq, ⟨pre, hpre⟩, ?_, hcolon⟩
    intro c hc
    have hca : c ∈ r.Address := by
      rw [hpre]
      exact List.mem_append_right _ hc
    exact fieldsFrom_no_white line [] (by simp) _ hmem c hca

theorem raw_sublist (lines : List GoString) :
    ((lines.filterMap (fun l => lineRecord (dropCR l))).map (fun r => r.Raw)).Sublist
      (lines.map dropCR) := by
  induction lines with
  | nil => simp
  | cons l ls ih =>
    cases hl : lineRecord (dropCR l) with
    | none =>
      rw [List.filterMap_cons, hl, List.map_cons]
      exact ih.cons _
    | some r =>
      have hraw : r.Raw = dropCR l := by
        have hp := (lineRecord_eq_some _ r).mp hl
        rcases parseLine_cases (dropCR l) with ⟨hs, _⟩ | ⟨q, hq, _, _, _, _, _, _, hr⟩
        · rw [hs] at hp
          cases hp
        · rw [hq] at hp
          cases hp
          exact hr
      rw [List.filterMap_cons, hl, List.map_cons, List.map_cons, hraw]
      exact ih.cons₂ _

theorem parseLsofOutput_ok_iff (out : GoString) (rs : List listeningProcess)
    (h : parseLsofOutput out = .ok rs) :
    (∀ l ∈ List.splitOn '\n' out, byteLen l < MaxScanTokenSize) ∧
      rs = (List.splitOn '\n' out).tail.filterMap (fun l => lineRecord (dropCR l)) := by
  by_cases hs : ∀ l ∈ List.splitOn '\n' out, byteLen l < MaxScanTokenSize
  · refine ⟨hs, ?_⟩
    rw [parseLsofOutput_ok out hs] at h
    cases h
    rfl
  · have hl : ∃ l ∈ List.splitOn '\n' out, MaxScanTokenSize ≤ byteLen l := by
      by_contra hc
      exact hs (fun l hl => Nat.lt_of_not_le (fun hle => hc ⟨l, hl, hle⟩))
    rw [parseLsofOutput_tooLong out hl] at h
    cases h

/-- C24. The records `listListeningProcesses` returns are in the order of the
output: their Raw lines, in sequence, are a sublist of the lines after the first
(a line being what precedes a newline, without the carriage return that may end
it), so nothing is reordered or duplicated. -/
theorem records_in_output_order (out : GoString) (rs : List listeningProcess)
    (h : parseLsofOutput out = .ok rs) :
    (rs.map (fun r => r.Raw)).Sublist ((List.splitOn '\n' out).tail.map dropCR) ∧
      ((∀ l ∈ List.splitOn '\n' out, dropCR l = l) →
        (rs.map (fun r => r.Raw)).Sublist (List.splitOn '\n' out).tail) := by
  obtain ⟨_, hrs⟩ := parseLsofOutput_ok_iff out rs h
  have hsub := raw_sublist (List.splitOn '\n' out).tail
  rw [← hrs] at hsub
  refine ⟨hsub, ?_⟩
  intro hcr
  have hid : (List.splitOn '\n' out).tail.map dropCR = (List.splitOn '\n' out).tail := by
    conv_rhs => rw [← List.map_id (List.splitOn '\n' out).tail]
    apply List.map_congr_left
    intro l hl
    exact hcr l (List.mem_of_mem_tail hl)
  rw [hid] at hsub
  exact hsub

/-- Witness for C24: the sample listing, whose two records come from its second
and fifth line. -/
theorem records_in_output_order_witness :
    (sampleRecords.map (fun r => r.Raw)).Sublist
      ((List.splitOn '\n' sampleListing).tail.map dropCR) :=
  (records_in_output_order sampleListing sampleRecords (by decide)).1

/-- C26. Filtering by port before deduplicating by PID loses no process that
listens on the port: for every record of the list with Port `p`, the candidates
`uniqueListeningByPID (filterListeningProcessesByPort all p)` hold exactly one
record with its PID, and every candidate has Port `p`. -/
theorem no_listener_lost (all : List listeningProcess) (p : GoString) (r : listeningProcess)
    (hr : r ∈ all) (hp : r.Port = p) :
    ((uniqueListeningByPID (filterListeningProcessesByPort all p)).filter
        (fun c => decide (c.PID = r.PID))).length = 1 ∧
      (∃ c ∈ uniqueListeningByPID (filterListeningProcessesByPort all p),
        c.PID = r.PID ∧ c.Port = p) ∧
      ∀ c ∈ uniqueListeningByPID (filterListeningProcessesByPort all p), c.Port = p := by
  have hport : ∀ c ∈ uniqueListeningByPID (filterListeningProcessesByPort all p),
      c.Port = p := by
    intro c hc
    rw [unique_eq] at hc
    have hm := (firstOfPID_sublist _ []).subset hc
    rw [filter_eq, List.mem_filter] at hm
    simpa using hm.2
  have hrf : r ∈ filterListeningProcessesByPort all p := by
    rw [filter_eq, List.mem_filter]
    exact ⟨hr, by simpa using hp⟩
  have hpid : r.PID ∈ (uniqueListeningByPID (filterListeningProcessesByPort all p)).map
      (fun c => c.PID) := by
    rw [unique_eq, mem_firstOfPID_pid]
    exact ⟨List.mem_map_of_mem _ hrf, List.not_mem_nil _⟩
  have hnd : ((uniqueListeningByPID (filterListeningProcessesByPort all p)).map
      (fun c => c.PID)).Nodup := by
    rw [unique_eq]
    exact firstOfPID_nodup _ []
  refine ⟨?_, ?_, hport⟩
  · have hcount := List.count_eq_one_of_mem hnd hpid
    rw [List.count, List.countP_map, List.countP_eq_length_filter] at hcount
    rw [← hcount]
    congr 1
  · obtain ⟨c, hc, hcp⟩ := List.mem_map.mp hpid
    exact ⟨c, hc, hcp, hport c hc⟩

/-- Witness for C26: in the listing with two sockets of process 5, the first on
8080 and the second on 3000, port `3000` still has process 5 as its candidate. -/
theorem no_listener_lost_witness :
    twoSocketRecords.map (fun r => r.Port) = ["8080".toList, "3000".toList, "9000".toList] ∧
      ((uniqueListeningByPID
          (filterListeningProcessesByPort twoSocketRecords "3000".toList)).filter
        (fun c => decide (c.PID = 5))).length = 1 :=
  ⟨by decide,
    (no_listener_lost twoSocketRecords "3000".toList
      { Command := "node".toList, User := "u".toList, PID := 5, Address := "[::1]:3000".toList,
        Port := "3000".toList, Raw := "node 5 u 23u IPv6 0x2 0t0 TCP [::1]:3000 (LISTEN)".toList }
      (by decide) rfl).1⟩

/-- C27. Every record `listListeningProcesses` returns has a Port that is not
empty, is a suffix of its Address, holds no white space, and holds a `:` only
when the Address ends in `:`; so filtering a parsed listing by the empty port
gives the empty list. -/
theorem port_invariants (out : GoString) (rs : List listeningProcess)
    (h : parseLsofOutput out = .ok rs) :
    (∀ r ∈ rs, r.Port ≠ [] ∧ r.Port <:+ r.Address ∧ (∀ c ∈ r.Port, isSpace c = false) ∧
      (':' ∈ r.Port → r.Address.getLast? = some ':')) ∧
    filterListeningProcessesByPort rs [] = [] := by
  have hall : ∀ r ∈ rs, r.Port ≠ [] ∧ r.Port <:+ r.Address ∧
      (∀ c ∈ r.Port, isSpace c = false) ∧ (':' ∈ r.Port → r.Address.getLast? = some ':') := by
    intro r hr
    obtain ⟨line, hl⟩ := mem_parseLsofOutput out rs h r hr
    obtain ⟨h1, ⟨pre, hpre⟩, h3, h4⟩ := parseLine_record_spec line r hl
    exact ⟨h1, ⟨pre, hpre.symm⟩, h3, h4⟩
  refine ⟨hall, ?_⟩
  rw [filter_eq, List.filter_eq_nil_iff]
  intro r hr
  simpa using (hall r hr).1

/-- Witness for C27: the listing with two sockets of one process, filtered by the
empty port. -/
theorem port_invariants_witness :
    filterListeningProcessesByPort twoSocketRecords [] = [] :=
  (port_invariants twoSocketListing twoSocketRecords (by decide)).2

/-- C29. The parser never panics: the scan loop and the whole parse end normally
for every input, because with 9 fields or more the index expressions
`fields[0]`, `fields[1]`, `fields[2]` and `fields[len(fields)-2]` are in range,
and the slice `address[idx+1:]` is taken only with `idx+1 < len(address)`, where
it is in range. -/
theorem parser_total :
    (∀ out, parseLsofOutput out ≠ .panic) ∧
    (∀ lines firstLine processes, parseLoop lines firstLine processes ≠ none) ∧
    (∀ line, parseLine line ≠ .panic) ∧
    (∀ fields : List GoString, 9 ≤ fields.length →
      (index fields 0).isSome ∧ (index fields 1).isSome ∧ (index fields 2).isSome ∧
        (index fields ((fields.length : Int) - 2)).isSome) ∧
    (∀ address : GoString, portOf address ≠ none) ∧
    (∀ (address : GoString) (idx : Int), 0 ≤ idx → idx + 1 < (address.length : Int) →
      (sliceFrom address (idx + 1)).isSome) := by
  refine ⟨parseLsofOutput_ne_panic, ?_, parseLine_ne_panic, ?_, portOf_ne_none, ?_⟩
  · intro lines firstLine processes
    cases firstLine with
    | false => rw [parseLoop_false]; simp
    | true =>
      cases lines with
      | nil => simp [parseLoop]
      | cons l ls => simp [parseLoop, parseLoop_false]
  · intro fields h9
    have e0 : index fields 0 = fields[0]? := index_natCast fields 0
    have e1 : index fields 1 = fields[1]? := index_natCast fields 1
    have e2 : index fields 2 = fields[2]? := index_natCast fields 2
    have ea : index fields ((fields.length : Int) - 2) = fields[fields.length - 2]? := by
      rw [show ((fields.length : Int) - 2) = ((fields.length - 2 : Nat) : Int) by omega,
        index_natCast]
    rw [e0, e1, e2, ea]
    refine ⟨?_, ?_, ?_, ?_⟩ <;>
      · rw [List.getElem?_eq_getElem (by omega)]
        rfl
  · intro address idx h0 hlt
    unfold sliceFrom
    rw [if_pos (by omega)]
    rfl

/-! ## Usage errors, outcomes without error, listing failures -/

theorem printed_append (a b : List Event) : printed (a ++ b) = printed a ++ printed b := by
  simp [printed]

/-- Whenever a signal is sent, what precedes it prints nothing and what follows
is the report of `killSelected` for a record with that PID. -/
theorem kill_mem_runKillPort (w : World) (args : List GoString) (pid : Int)
    (h : Event.kill pid ∈ (runKillPort w args).1) :
    ∃ pre r, r.PID = pid ∧ printed pre = [] ∧
      runKillPort w args = (pre ++ (killSelected w r).1, (killSelected w r).2) := by
  have hsig : pid ∈ signals (runKillPort w args).1 := List.mem_filterMap.mpr ⟨_, h, rfl⟩
  rcases runKillPort_shape w args with h0 | ⟨all, arg, r, _, _, _, _, hrun⟩ |
    ⟨all, T, _, _, _, hrun⟩
  · exact absurd (h0 _ h).1 (by simp [Event.killed])
  · rw [hrun, signals_append, signals_killSelected] at hsig
    have hp : pid = r.PID := by simpa [signals, Event.killed] using hsig
    exact ⟨[.lookPath, .run], r, hp.symm, rfl, hrun⟩
  · rw [hrun, signals_append] at hsig
    rcases signals_selectAndKill w T with ⟨hnil, _⟩ | ⟨i, r, _, _, hone, hs⟩
    · rw [hnil] at hsig
      simp [signals, Event.killed] at hsig
    · rw [hone] at hsig
      have hp : pid = r.PID := by simpa [signals, Event.killed] using hsig
      refine ⟨[.lookPath, .run, .find T (T.map displayLine)], r, hp.symm, rfl, ?_⟩
      rw [hrun, hs]
      rfl

/-- C21 (as amended). Once the listing has succeeded with at least one record, a
port argument that is empty or blank is a usage error: `runKillPort` prints the
usage line and "port cannot be empty" to standard error and returns that error;
the selector and `syscall.Kill` are not called. -/
theorem empty_port_usage_error (w : World) (arg : GoString) (all : List listeningProcess)
    (harg : TrimSpace arg = [])
    (hlook : w.lookPath = none) (hrun : w.run = none)
    (hparse : parseLsofOutput w.stdout = .ok all) (hne : all ≠ []) :
    runKillPort w [arg]
        = ([.lookPath, .run, .stderr (usageLine w), .stderr "port cannot be empty\n".toList],
          .error (.text "port cannot be empty".toList)) ∧
      selections (runKillPort w [arg]).1 = [] ∧ signals (runKillPort w [arg]).1 = [] := by
  rw [runKillPort_empty_port w all arg hne (listListeningProcesses_ok w all hlook hrun hparse)
    harg]
  exact ⟨rfl, rfl, rfl⟩

/-- Witness for C21: a blank port argument in the sample world. -/
theorem empty_port_usage_error_witness :
    runKillPort sampleWorld ["  ".toList]
        = ([.lookPath, .run, .stderr (usageLine sampleWorld),
            .stderr "port cannot be empty\n".toList],
          .error (.text "port cannot be empty".toList)) ∧
      selections (runKillPort sampleWorld ["  ".toList]).1 = [] ∧
      signals (runKillPort sampleWorld ["  ".toList]).1 = [] :=
  empty_port_usage_error sampleWorld "  ".toList twoSocketRecords (by decide) rfl rfl
    (by decide) (by decide)

/-- C21 fails as stated: with an empty port argument the query is issued all the
same, and with an empty listing the command returns nil after the "no listening
ports" line, not a usage error. -/
theorem empty_port_empty_listing :
    runKillPort emptyWorld [[]]
      = ([.lookPath, .run, .stdout "No listening TCP ports found.\n".toList], .ok ()) := by
  decide

/-- C22 (as amended). Three of the four outcomes without error print one line: the
empty listing, the port without match, and the signal to a process that is
already gone, which prints the same "Killed ..." line as a delivered signal;
these three lines differ from one another. The cancelled selection returns nil
and prints nothing. -/
theorem nonerror_outcomes (w : World) :
    (∀ args, args.length ≤ 1 → w.lookPath = none → w.run = none →
      parseLsofOutput w.stdout = .ok [] →
      (runKillPort w args).2 = .ok () ∧
        printed (runKillPort w args).1 = ["No listening TCP ports found.\n".toList]) ∧
    (∀ arg all, w.lookPath = none → w.run = none → parseLsofOutput w.stdout = .ok all →
      all ≠ [] → TrimSpace arg ≠ [] → (∀ r ∈ all, r.Port ≠ TrimSpace arg) →
      (runKillPort w [arg]).2 = .ok () ∧
        printed (runKillPort w [arg]).1
          = ["No listening process found on port ".toList ++ TrimSpace arg ++ ".\n".toList]) ∧
    (∀ args ts items err, Event.find ts items ∈ (runKillPort w args).1 →
      w.find items = .error err → err.isAbort = true →
      (runKillPort w args).2 = .ok () ∧ printed (runKillPort w args).1 = []) ∧
    (∀ args pid e, Event.kill pid ∈ (runKillPort w args).1 → w.kill pid = some e →
      e.isESRCH = true →
      (runKillPort w args).2 = .ok () ∧
        ∃ r, r.PID = pid ∧ printed (runKillPort w args).1 = [killedMessage r]) ∧
    (∀ (port : GoString) (r : listeningProcess),
      "No listening TCP ports found.\n".toList
          ≠ "No listening process found on port ".toList ++ port ++ ".\n".toList ∧
        "No listening TCP ports found.\n".toList ≠ killedMessage r ∧
        "No listening process found on port ".toList ++ port ++ ".\n".toList
          ≠ killedMessage r) := by
  refine ⟨?_, ?_, ?_, ?_, ?_⟩
  · intro args hle hlook hrun hparse
    rw [runKillPort_empty_listing w args hle (listListeningProcesses_ok w [] hlook hrun hparse)]
    exact ⟨rfl, rfl⟩
  · intro arg all hlook hrun hparse hne hport hnone
    have hc : candidatesFor all arg = [] := by
      have hf : filterListeningProcessesByPort all (TrimSpace arg) = [] := by
        rw [filter_eq, List.filter_eq_nil_iff]
        intro r hr
        simpa using hnone r hr
      unfold candidatesFor
      rw [hf]
      rfl
    rw [runKillPort_no_match w all arg hne (listListeningProcesses_ok w all hlook hrun hparse)
      hport hc]
    exact ⟨rfl, rfl⟩
  · intro args ts items err hmem hf ha
    obtain ⟨hi, _, hrun⟩ := find_mem_runKillPort w args ts items hmem
    subst hi
    have hs : selectAndKill w ts = ([.find ts (ts.map displayLine)], .ok ()) := by
      simp [selectAndKill, hf, ha]
    rw [hrun, hs]
    exact ⟨rfl, rfl⟩
  · intro args pid e hmem hk he
    obtain ⟨pre, r, hr, hpre, hrun⟩ := kill_mem_runKillPort w args pid hmem
    have hok : (killListeningProcess w r.PID).2 = none :=
      (kill_result_none_iff w r.PID).mpr (Or.inr ⟨e, by rw [hr]; exact hk, he⟩)
    rw [hrun, killSelected_success w r hok]
    refine ⟨rfl, r, hr, ?_⟩
    rw [printed_append, hpre]
    rfl
  · intro port r
    have e2 : ("No listening process found on port ".toList ++ port ++ ".\n".toList)[13]?
        = some 'p' := rfl
    have e3 : ("No listening process found on port ".toList ++ port ++ ".\n".toList)[0]?
        = some 'N' := rfl
    have e4 : (killedMessage r)[0]? = some 'K' := rfl
    refine ⟨?_, ?_, ?_⟩
    · intro h
      have h13 := congrArg (fun l => l[13]?) h
      simp only [e2] at h13
      exact absurd h13 (by decide)
    · intro h
      have h0 := congrArg (fun l => l[0]?) h
      simp only [e4] at h0
      exact absurd h0 (by decide)
    · intro h
      have h0 := congrArg (fun l => l[0]?) h
      simp only [e3, e4] at h0
      exact absurd h0 (by decide)

/-- Witness for C22: port `8080` in the world where the signalled process is
already gone. -/
theorem nonerror_outcomes_witness :
    (runKillPort goneWorld ["8080".toList]).2 = .ok () ∧
      ∃ r, r.PID = 5 ∧ printed (runKillPort goneWorld ["8080".toList]).1 = [killedMessage r] :=
  (nonerror_outcomes goneWorld).2.2.2.1 ["8080".toList] 5 (.errno 3 "no such process".toList)
    (by decide) rfl rfl

/-- C22 fails as stated: the cancelled selection returns nil without writing
anything. -/
theorem cancelled_selection_silent :
    (runKillPort abortWorld []).2 = .ok () ∧ printed (runKillPort abortWorld []).1 = [] := by
  decide

theorem TrimSpace_fixed (u : GoString) (hhead : ∀ c, u.head? = some c → isSpace c = false)
    (hlast : ∀ c, u.getLast? = some c → isSpace c = false) : TrimSpace u = u := by
  have h1 : u.dropWhile isSpace = u := by
    cases u with
    | nil => rfl
    | cons c cs =>
      have hc := hhead c rfl
      simp [List.dropWhile, hc]
  unfold TrimSpace
  rw [h1, List.rdropWhile_eq_self_iff]
  intro hl
  have := hlast _ (List.getLast?_eq_getLast u hl)
  simp [this]

theorem TrimSpace_ends (s : GoString) :
    (∀ c, (TrimSpace s).head? = some c → isSpace c = false) ∧
      (∀ c, (TrimSpace s).getLast? = some c → isSpace c = false) := by
  constructor
  · intro c hc
    unfold TrimSpace at hc
    obtain ⟨t, ht⟩ : (s.dropWhile isSpace).rdropWhile isSpace <+: s.dropWhile isSpace :=
      List.rdropWhile_prefix isSpace _
    cases hu : (s.dropWhile isSpace).rdropWhile isSpace with
    | nil => rw [hu] at hc; cases hc
    | cons x xs =>
      rw [hu] at hc ht
      cases hc
      have hne : s.dropWhile isSpace ≠ [] := by
        rw [← ht]
        simp
      have hnot := List.head_dropWhile_not isSpace s hne
      have hx : (s.dropWhile isSpace).head hne = c := by
        simp [← ht]
      rw [hx] at hnot
      exact hnot
  · intro c hc
    unfold TrimSpace at hc
    cases hu : (s.dropWhile isSpace).rdropWhile isSpace with
    | nil => rw [hu] at hc; cases hc
    | cons x xs =>
      have hne : (s.dropWhile isSpace).rdropWhile isSpace ≠ [] := by
        rw [hu]
        simp
      have hnot := List.rdropWhile_last_not isSpace (s.dropWhile isSpace) hne
      rw [List.getLast?_eq_getLast _ hne] at hc
      cases hc
      simpa using hnot

theorem TrimSpace_idem (s : GoString) : TrimSpace (TrimSpace s) = TrimSpace s :=
  TrimSpace_fixed _ (TrimSpace_ends s).1 (TrimSpace_ends s).2

/-- C23. When `lsof` is not found or its run ends with an error,
`listListeningProcesses` returns an error, which wraps the cause, and no
records; after a failed run with non-blank text on standard error the message
of the error holds that text, trimmed; and `runKillPort` then returns an error
without calling the selector or `syscall.Kill`. -/
theorem listing_failure (w : World) :
    (∀ e, w.lookPath = some e →
      listListeningProcesses w
        = ([.lookPath], .error (.wrap "lsof not found in PATH: ".toList e))) ∧
    (∀ e, w.lookPath = none → w.run = some e →
      ∃ err, listListeningProcesses w = ([.lookPath, .run], .error err) ∧
        err.unwrap = some e ∧
        (TrimSpace w.stderr ≠ [] → TrimSpace w.stderr <:+: err.message)) ∧
    (∀ args evs err, listListeningProcesses w = (evs, .error err) →
      (∃ e, (runKillPort w args).2 = .error e) ∧
        (args.length ≤ 1 → (runKillPort w args).2 = .error err) ∧
        selections (runKillPort w args).1 = [] ∧ signals (runKillPort w args).1 = []) := by
  refine ⟨?_, ?_, ?_⟩
  · intro e he
    simp [listListeningProcesses, he]
  · intro e hl hr
    by_cases hm : TrimSpace w.stderr = []
    · refine ⟨.wrap "list listening ports: ".toList e, ?_, rfl, fun h => absurd hm h⟩
      simp [listListeningProcesses, hl, hr, hm]
    · refine ⟨.wrap ("list listening ports: ".toList ++ TrimSpace w.stderr ++ ": ".toList) e,
        ?_, rfl, fun _ => ⟨"list listening ports: ".toList, ": ".toList ++ e.message, ?_⟩⟩
      · simp [listListeningProcesses, hl, hr, hm]
      · simp [Error.message]
  · intro args evs err hl
    by_cases hlen : 1 < args.length
    · rw [runKillPort_many_args w args hlen]
      exact ⟨⟨_, rfl⟩, fun h => absurd hlen (by omega), rfl, rfl⟩
    · have hle : args.length ≤ 1 := by omega
      rw [runKillPort_list_error w args hle evs err hl]
      refine ⟨⟨_, rfl⟩, fun _ => rfl, ?_, ?_⟩
      · rcases listListeningProcesses_cases w with ⟨e, h1⟩ | ⟨e, h1⟩ | ⟨all, h1, _⟩
        · rw [hl] at h1
          cases h1
          rfl
        · rw [hl] at h1
          cases h1
          rfl
        · rw [hl] at h1
          cases h1
      · rcases listListeningProcesses_cases w with ⟨e, h1⟩ | ⟨e, h1⟩ | ⟨all, h1, _⟩
        · rw [hl] at h1
          cases h1
          rfl
        · rw [hl] at h1
          cases h1
          rfl
        · rw [hl] at h1
          cases h1

/-- Witness for C23: the world where `lsof` exits with status 1 after writing a
line on standard error. -/
theorem listing_failure_witness :
    ∃ err, listListeningProcesses brokenWorld = ([.lookPath, .run], .error err) ∧
      err.unwrap = some (.other "exit status 1".toList) ∧
      (TrimSpace brokenWorld.stderr ≠ [] → TrimSpace brokenWorld.stderr <:+: err.message) :=
  (listing_failure brokenWorld).2.1 (.other "exit status 1".toList) rfl rfl

/-- C28. `runKillPort` uses the port argument only through `strings.TrimSpace`:
the whole run, its trace and its result, for an argument is the run for the
trimmed argument; so ` 8080 ` selects exactly the records whose Port is
`8080`. -/
theorem port_argument_trimmed (w : World) (a : GoString) :
    runKillPort w [a] = runKillPort w [TrimSpace a] ∧
      (∀ all, uniqueListeningByPID (filterListeningProcessesByPort all (TrimSpace a))
        = uniqueListeningByPID
            (filterListeningProcessesByPort all (TrimSpace (TrimSpace a)))) ∧
      TrimSpace " 8080 ".toList = "8080".toList ∧
      (∀ all r, r ∈ filterListeningProcessesByPort all (TrimSpace " 8080 ".toList) ↔
        r ∈ all ∧ r.Port = "8080".toList) := by
  refine ⟨?_, ?_, by decide, ?_⟩
  · unfold runKillPort
    simp only [TrimSpace_idem, List.length_singleton]
  · intro all
    rw [TrimSpace_idem]
  · intro all r
    have ht : TrimSpace " 8080 ".toList = "8080".toList := by decide
    rw [ht, filter_eq, List.mem_filter]
    simp

/-! ## The two copies, and the pull request number -/

theorem main_filterLoop_eq (t : GoString) (ps acc : List listeningProcess) :
    Main.filterLoop t ps acc = filterLoop t ps acc := by
  induction ps generalizing acc with
  | nil => rfl
  | cons p ps ih => simp only [Main.filterLoop, filterLoop, ih]

theorem main_uniqueLoop_eq (ps : List listeningProcess) (seen : List Int)
    (acc : List listeningProcess) : Main.uniqueLoop ps seen acc = uniqueLoop ps seen acc := by
  induction ps generalizing seen acc with
  | nil => rfl
  | cons p ps ih => simp only [Main.uniqueLoop, uniqueLoop, ih]

theorem main_parseLine_eq (line : GoString) : Main.parseLine line = parseLine line := rfl

theorem main_parseLoop_eq (lines : List GoString) (firstLine : Bool)
    (acc : List listeningProcess) :
    Main.parseLoop lines firstLine acc = parseLoop lines firstLine acc := by
  induction lines generalizing firstLine acc with
  | nil => rfl
  | cons l ls ih => simp only [Main.parseLoop, parseLoop, ih, main_parseLine_eq]

/-- C30. The copies of `src/main.go` agree with those of `src/cli/flow/main.go`:
`filterProcessesByPort` and `uniqueByPID` return the lists of
`filterListeningProcessesByPort` and `uniqueListeningByPID`, and the scan loops
of the two `listListeningProcesses` give the same result for every output, so
that the two functions return the same whenever `lsof` is found. -/
theorem copies_agree :
    (∀ ps t, Main.filterProcessesByPort ps t = filterListeningProcessesByPort ps t) ∧
    (∀ ps, Main.uniqueByPID ps = uniqueListeningByPID ps) ∧
    (∀ lines firstLine processes,
      Main.parseLoop lines firstLine processes = parseLoop lines firstLine processes) ∧
    (∀ out, Main.parseLsofOutput out = parseLsofOutput out) ∧
    (∀ w, w.lookPath = none →
      (Main.listListeningProcesses w).2 = (listListeningProcesses w).2) := by
  refine ⟨?_, ?_, main_parseLoop_eq, ?_, ?_⟩
  · intro ps t
    exact main_filterLoop_eq t ps []
  · intro ps
    exact main_uniqueLoop_eq ps [] []
  · intro out
    simp only [Main.parseLsofOutput, parseLsofOutput, main_parseLoop_eq]
  · intro w hl
    simp only [Main.listListeningProcesses, listListeningProcesses, hl, Main.parseLsofOutput,
      parseLsofOutput, main_parseLoop_eq]
    cases w.run with
    | none => rfl
    | some err =>
      dsimp only
      split_ifs <;> rfl

theorem digitVal_digitChar (k : Nat) (h : k < 10) : digitVal (Nat.digitChar k) = some k := by
  interval_cases k <;> rfl

theorem digitChar_range (k : Nat) (h : k < 10) :
    48 ≤ (Nat.digitChar k).toNat ∧ (Nat.digitChar k).toNat ≤ 57 := by
  interval_cases k <;> decide

theorem parseDigits_append (xs ys : List Char) (a : Nat) :
    parseDigits (xs ++ ys) a = (parseDigits xs a).bind (parseDigits ys) := by
  induction xs generalizing a with
  | nil => rfl
  | cons c cs ih =>
    simp only [List.cons_append, parseDigits]
    cases digitVal c with
    | none => rfl
    | some d => exact ih _

/-- The digits `Nat.toDigits` writes are read back by the digit loop of `Atoi`. -/
theorem toDigitsCore_spec (fuel n : Nat) (ds : List Char) (h : n < fuel) :
    ∃ xs, Nat.toDigitsCore 10 fuel n ds = xs ++ ds ∧ xs ≠ [] ∧
      (∀ c ∈ xs, 48 ≤ c.toNat ∧ c.toNat ≤ 57) ∧
      ∀ a, parseDigits xs a = some (a * 10 ^ xs.length + n) := by
  induction fuel generalizing n ds with
  | zero => omega
  | succ fuel ih =>
    have hmod : n % 10 < 10 := Nat.mod_lt _ (by omega)
    by_cases h0 : n / 10 = 0
    · have hn : n % 10 = n := Nat.mod_eq_of_lt (by omega)
      refine ⟨[Nat.digitChar (n % 10)], ?_, by simp, ?_, ?_⟩
      · simp [Nat.toDigitsCore, h0]
      · intro c hc
        rw [List.mem_singleton.mp hc]
        exact digitChar_range _ hmod
      · intro a
        simp only [parseDigits, digitVal_digitChar _ hmod, List.length_singleton, pow_one]
        rw [hn]
    · obtain ⟨xs, hx, _, hd, hp⟩ := ih (n / 10) (Nat.digitChar (n % 10) :: ds) (by omega)
      refine ⟨xs ++ [Nat.digitChar (n % 10)], ?_, by simp, ?_, ?_⟩
      · simp [Nat.toDigitsCore, h0, hx]
      · intro c hc
        rcases List.mem_append.mp hc with hc | hc
        · exact hd c hc
        · rw [List.mem_singleton.mp hc]
          exact digitChar_range _ hmod
      · intro a
        rw [parseDigits_append, hp a]
        simp only [Option.some_bind, parseDigits, digitVal_digitChar _ hmod, List.length_append,
          List.length_singleton, pow_succ]
        congr 1
        have := Nat.div_add_mod n 10
        nlinarith [this]

theorem toDigits_spec (n : Nat) :
    Nat.toDigits 10 n ≠ [] ∧ (∀ c ∈ Nat.toDigits 10 n, 48 ≤ c.toNat ∧ c.toNat ≤ 57) ∧
      parseDigits (Nat.toDigits 10 n) 0 = some n := by
  obtain ⟨xs, hx, hne, hd, hp⟩ := toDigitsCore_spec (n + 1) n [] (by omega)
  have hx2 : Nat.toDigits 10 n = xs := by
    rw [Nat.toDigits, hx, List.append_nil]
  rw [hx2]
  refine ⟨hne, hd, ?_⟩
  rw [hp 0]
  simp

theorem digit_not_space (c : Char) (h : 48 ≤ c.toNat ∧ c.toNat ≤ 57) : isSpace c = false := by
  unfold isSpace
  have h1 : c.toNat ≤ 0xFF := by omega
  simp only [h1, if_true]
  simp only [Bool.or_eq_false_iff, decide_eq_false_iff_not]
  omega

theorem digit_ne (c d : Char) (h : 48 ≤ c.toNat ∧ c.toNat ≤ 57)
    (hd : d.toNat < 48 ∨ 57 < d.toNat) : c ≠ d := by
  rintro rfl
  omega

theorem Atoi_digits (ds : GoString) (m : Nat) (hne : ds ≠ [])
    (hd : ∀ c ∈ ds, 48 ≤ c.toNat ∧ c.toNat ≤ 57) (hp : parseDigits ds 0 = some m)
    (hm : m < 2 ^ 63) : Atoi ds = some (m : Int) := by
  cases ds with
  | nil => exact absurd rfl hne
  | cons c cs =>
    have hc := hd c (List.mem_cons_self _ _)
    have h1 : c ≠ '-' := digit_ne c '-' hc (Or.inl (by decide))
    have h2 : c ≠ '+' := digit_ne c '+' hc (Or.inl (by decide))
    have hm2 : m < 9223372036854775808 := by
      norm_num at hm
      exact hm
    simp [Atoi, h1, h2, hp, hm2]

theorem dropWhile_padded (pre rest : GoString) (h : ∀ c ∈ pre, isSpace c = true) :
    (pre ++ rest).dropWhile isSpace = rest.dropWhile isSpace := by
  induction pre with
  | nil => rfl
  | cons c cs ih =>
    have hc := h c (List.mem_cons_self _ _)
    simp only [List.cons_append, List.dropWhile, hc]
    exact ih (fun d hd => h d (List.mem_cons_of_mem _ hd))

theorem rdropWhile_padded (core post : GoString) (h : ∀ c ∈ post, isSpace c = true) :
    (core ++ post).rdropWhile isSpace = core.rdropWhile isSpace := by
  unfold List.rdropWhile
  rw [List.reverse_append, dropWhile_padded _ _ (fun c hc => h c (List.mem_reverse.mp hc))]

/-- Trimming a text that has white space only around a core with no white space
at its ends gives the core. -/
theorem TrimSpace_padded (pre core post : GoString) (hpre : ∀ c ∈ pre, isSpace c = true)
    (hpost : ∀ c ∈ post, isSpace c = true)
    (hhead : ∀ c, core.head? = some c → isSpace c = false)
    (hlast : ∀ c, core.getLast? = some c → isSpace c = false) :
    TrimSpace (pre ++ core ++ post) = core := by
  have hfix := TrimSpace_fixed core hhead hlast
  by_cases hne : core = []
  · subst hne
    unfold TrimSpace
    rw [List.append_nil, ← List.append_nil (pre ++ post), List.append_assoc,
      dropWhile_padded pre _ hpre, List.append_nil]
    have : post.dropWhile isSpace = [] := by
      rw [List.dropWhile_eq_nil_iff]
      exact hpost
    rw [this]
    rfl
  · have hd : core.dropWhile isSpace = core := by
      cases hc : core with
      | nil => exact absurd hc hne
      | cons c cs =>
        have := hhead c (by rw [hc]; rfl)
        simp [List.dropWhile, this]
    have hd2 : (core ++ post).dropWhile isSpace = core ++ post := by
      cases hc : core with
      | nil => exact absurd hc hne
      | cons c cs =>
        have := hhead c (by rw [hc]; rfl)
        simp [List.dropWhile, this]
    unfold TrimSpace at hfix ⊢
    rw [List.append_assoc, dropWhile_padded pre _ hpre, hd2, rdropWhile_padded core post hpost]
    rw [hd] at hfix
    exact hfix

theorem TrimSuffix_slash_append (s : GoString) : TrimSuffix (s ++ ['/']) "/".toList = s := by
  have h : "/".toList.isSuffixOf (s ++ ['/']) = true := by
    rw [List.isSuffixOf_iff_suffix]
    exact ⟨s, rfl⟩
  unfold TrimSuffix
  rw [if_pos h]
  simp [String.toList]

theorem TrimSuffix_slash_none (s : GoString) (h : s.getLast? ≠ some '/') :
    TrimSuffix s "/".toList = s := by
  have hn : ¬ "/".toList.isSuffixOf s = true := by
    rw [List.isSuffixOf_iff_suffix]
    rintro ⟨t, ht⟩
    apply h
    rw [← ht]
    simp [String.toList]
  unfold TrimSuffix
  rw [if_neg hn]

theorem IndexAny_neg (s chars : GoString) (h : ∀ c ∈ s, c ∉ chars) : IndexAny s chars = -1 := by
  induction s with
  | nil => rfl
  | cons c cs ih =>
    have hc := h c (List.mem_cons_self _ _)
    have ih2 := ih (fun d hd => h d (List.mem_cons_of_mem _ hd))
    simp [IndexAny, hc, ih2]

theorem parseNumericCandidate_digits (ds : GoString) (m : Nat) (hne : ds ≠ [])
    (hd : ∀ c ∈ ds, 48 ≤ c.toNat ∧ c.toNat ≤ 57) (hp : parseDigits ds 0 = some m)
    (hpos : 0 < m) (hm : m < 2 ^ 63) :
    Main.parseNumericCandidate ds = some ((m : Int), true) := by
  have hsp : ∀ c ∈ ds, isSpace c = false := fun c hc => digit_not_space c (hd c hc)
  have htrim : TrimSpace ds = ds :=
    TrimSpace_fixed ds (fun c hc => hsp c (List.mem_of_mem_head? hc))
      (fun c hc => hsp c (List.mem_of_mem_getLast? hc))
  have hidx : IndexAny ds ['?', '#'] = -1 := by
    apply IndexAny_neg
    intro c hc hmem
    have hr := hd c hc
    simp only [List.mem_cons, List.mem_singleton, List.not_mem_nil, or_false] at hmem
    rcases hmem with rfl | rfl
    · exact absurd hr (by decide)
    · exact absurd hr (by decide)
  have hat := Atoi_digits ds m hne hd hp hm
  have hpos2 : ¬ ((m : Int) ≤ 0) := by omega
  simp [Main.parseNumericCandidate, htrim, hne, hidx, hat, hpos2]

theorem parseNumericCandidate_pos (raw : GoString) (v : Int)
    (h : Main.parseNumericCandidate raw = some (v, true)) : 0 < v := by
  unfold Main.parseNumericCandidate at h
  simp only at h
  repeat' split at h
  all_goals
    cases h
    try omega

theorem scanSegments_pos (segments : List GoString) (fuel i : Nat) (v : Int)
    (h : Main.scanSegments segments fuel i = some (some v)) : 0 < v := by
  induction fuel generalizing i with
  | zero => simp [Main.scanSegments] at h
  | succ fuel ih =>
    unfold Main.scanSegments at h
    repeat' split at h
    all_goals
      first
        | exact ih _ h
        | (cases h; exact parseNumericCandidate_pos _ _ (by assumption))
        | cases h

theorem afterLast_pos (candidate : GoString) (sep : Char) (v : Int)
    (h : Main.afterLast candidate sep = some (some v)) : 0 < v := by
  unfold Main.afterLast at h
  simp only at h
  repeat' split at h
  all_goals
    first
      | (cases h; exact parseNumericCandidate_pos _ _ (by assumption))
      | cases h

theorem urlAttempt_pos (urlParse : GoString → Option URL) (candidate : GoString) (v : Int)
    (h : Main.urlAttempt urlParse candidate = some (some v)) : 0 < v := by
  unfold Main.urlAttempt at h
  repeat' split at h
  all_goals
    first
      | exact scanSegments_pos _ _ _ _ h
      | cases h

/-- C25. `extractPullRequestNumber` accepts a pull request by number: for every
positive `n` of the `int` range, the decimal text of `n`, with white space
around it and possibly one `/` after it, gives `n` without error; and whenever
the function returns without error, the number it returns is positive. -/
theorem pull_request_by_number (urlParse : GoString → Option URL)
    (quote : GoString → GoString) :
    (∀ (n : Int) (pre post slash : GoString), 0 < n → n < 2 ^ 63 →
      (∀ c ∈ pre, isSpace c = true) → (∀ c ∈ post, isSpace c = true) →
      (slash = [] ∨ slash = ['/']) →
      Main.extractPullRequestNumber urlParse quote (pre ++ Itoa n ++ slash ++ post) = .ok n) ∧
    (∀ input v, Main.extractPullRequestNumber urlParse quote input = .ok v → 0 < v) := by
  constructor
  · intro n pre post slash hpos hlt hpre hpost hslash
    have hI : Itoa n = Nat.toDigits 10 n.toNat := by
      unfold Itoa
      rw [if_neg (by omega)]
    obtain ⟨hne, hd, hp⟩ := toDigits_spec n.toNat
    rw [hI]
    generalize Nat.toDigits 10 n.toNat = ds at hne hd hp
    have hsp : ∀ c ∈ ds, isSpace c = false := fun c hc => digit_not_space c (hd c hc)
    have hcore : TrimSpace (pre ++ ds ++ slash ++ post) = ds ++ slash := by
      have e : pre ++ ds ++ slash ++ post = pre ++ (ds ++ slash) ++ post := by
        simp [List.append_assoc]
      rw [e]
      apply TrimSpace_padded _ _ _ hpre hpost
      · intro c hc
        cases hds : ds with
        | nil => exact absurd hds hne
        | cons x xs =>
          rw [hds] at hc
          cases hc
          exact hsp _ (by rw [hds]; exact List.mem_cons_self _ _)
      · intro c hc
        rcases hslash with rfl | rfl
        · rw [List.append_nil] at hc
          exact hsp c (List.mem_of_mem_getLast? hc)
        · rw [List.getLast?_append] at hc
          cases hc
          rfl
    have hsuf : TrimSuffix (ds ++ slash) "/".toList = ds := by
      rcases hslash with rfl | rfl
      · rw [List.append_nil]
        apply TrimSuffix_slash_none
        intro hl
        have := hd '/' (List.mem_of_mem_getLast? hl)
        exact absurd this (by decide)
      · exact TrimSuffix_slash_append ds
    have hm : n.toNat < 2 ^ 63 := by
      have : (n.toNat : Int) < 2 ^ 63 := by
        rw [Int.toNat_of_nonneg (by omega)]
        exact hlt
      exact_mod_cast this
    have hnum := parseNumericCandidate_digits ds n.toNat hne hd hp (by omega) hm
    have hn : ((n.toNat : Nat) : Int) = n := Int.toNat_of_nonneg (by omega)
    rw [hn] at hnum
    simp only [Main.extractPullRequestNumber, hcore, hsuf, hne, if_false, hnum]
  · intro input v h
    unfold Main.extractPullRequestNumber at h
    simp only at h
    repeat' split at h
    all_goals
      first
        | (cases h; exact parseNumericCandidate_pos _ _ (by assumption))
        | (cases h; exact urlAttempt_pos _ _ _ (by assumption))
        | (cases h; exact afterLast_pos _ _ _ (by assumption))
        | cases h

/-- Witness for C25: the text ` 123/ ` gives 123. -/
theorem pull_request_by_number_witness :
    Main.extractPullRequestNumber (fun _ => none) id (" ".toList ++ Itoa 123 ++ ['/'] ++ " ".toList)
      = .ok 123 :=
  (pull_request_by_number (fun _ => none) id).1 123 " ".toList " ".toList ['/'] (by decide)
    (by decide) (by decide) (by decide) (Or.inr rfl)

end Flow
